import Mathlib

/-!
# A shallow embedding of the `bagnalloc` allocator (src/malloc.c)

We model the allocator for a 64-bit target:
* addresses are natural numbers, with `0` playing the role of `NULL`;
* `sizeof(block_meta) = 32` (a `size_t`, two pointers, an `int`, padded to
  8-byte alignment) and `sizeof(size_t) = 8`;
* `size_t` arithmetic that can overflow is taken modulo `2^64`;
* the heap header memory is an association list from block addresses to
  `block_meta` records, written field by field exactly as the C code does;
* payload bytes live in a separate byte store (the allocator never lets a
  live payload overlap a live header, so the split store is faithful);
* the kernel is modelled as always granting `sbrk` growth; `mmap` returns
  fresh addresses far above the heap, drawn from a counter in the state.
  (A separate, explicitly parameterised embedding is used to examine the
  behaviour of the code when the kernel refuses a request.)
* the `while` loops of `malloc` and `free` are translated as fuel-indexed
  recursions; the fuel is always taken large enough (the heap size) and
  sufficiency is proved from the free-list invariants where needed.
-/

namespace Bagnalloc

set_option maxRecDepth 4000
set_option maxHeartbeats 1000000

/-- `2^64`, the modulus of `size_t` arithmetic. -/
def W : Nat := 2 ^ 64

/-- `sizeof(block_meta)` on the 64-bit reference target. -/
def HDR : Nat := 32

/-- `sizeof(size_t)` on the 64-bit reference target. -/
def WORD : Nat := 8

/-- `MMAP_THRESHOLD` from src/malloc.c (128*1024 bytes). -/
def MMAP_THRESHOLD : Nat := 128 * 1024

/-- `HEAP_GROWTH_INCREMENT` from src/malloc.c (4 pages). -/
def HEAP_GROWTH_INCREMENT : Nat := 4

/-- The base address at which the modelled kernel places anonymous
mappings; far above any reachable program break. -/
def MMAP_BASE : Nat := 2 ^ 47

/-- The `block_meta` structure at the head of every heap block.
`prev`/`next` hold addresses; `0` encodes `NULL`. -/
structure block_meta where
  length : Nat
  prev : Nat
  next : Nat
deriving DecidableEq, Repr

/-- Junk header returned when reading an address never written. -/
def junkMeta : block_meta := ⟨0, 0, 0⟩

/-- The global allocator state (the C file's statics plus the memory). -/
structure AllocState where
  initialized : Bool
  page_size : Nat
  start_brk : Nat
  end_brk : Nat
  free_blocks : Nat
  last_free_block : Nat
  /-- header memory: latest write to an address shadows older ones -/
  hdrs : List (Nat × block_meta)
  /-- raw `size_t` memory used by the mmap length headers -/
  words : List (Nat × Nat)
  /-- payload byte memory -/
  bytes : List (Nat × Nat)
  /-- live anonymous mappings `(address, size)` -/
  mappings : List (Nat × Nat)
  /-- address counter for fresh anonymous mappings -/
  mmap_ctr : Nat
deriving DecidableEq, Repr

/-- Read a header from a header store. -/
def lookupHdr (l : List (Nat × block_meta)) (a : Nat) : block_meta :=
  (l.lookup a).getD junkMeta

/-- Read the header at address `a`. -/
def getHdr (s : AllocState) (a : Nat) : block_meta :=
  lookupHdr s.hdrs a

/-- Write the whole header at address `a`. -/
def setHdr (s : AllocState) (a : Nat) (m : block_meta) : AllocState :=
  { s with hdrs := (a, m) :: s.hdrs }

/-- `a->length = v` -/
def setLength (s : AllocState) (a v : Nat) : AllocState :=
  setHdr s a { getHdr s a with length := v }

/-- `a->prev = v` -/
def setPrev (s : AllocState) (a v : Nat) : AllocState :=
  setHdr s a { getHdr s a with prev := v }

/-- `a->next = v` -/
def setNext (s : AllocState) (a v : Nat) : AllocState :=
  setHdr s a { getHdr s a with next := v }

/-- Read the `size_t` at address `a` (mmap length headers). -/
def getWord (s : AllocState) (a : Nat) : Nat :=
  (s.words.lookup a).getD 0

/-- Write the `size_t` at address `a`. -/
def setWord (s : AllocState) (a v : Nat) : AllocState :=
  { s with words := (a, v) :: s.words }

/-- Read the payload byte at address `a`. -/
def getByte (s : AllocState) (a : Nat) : Nat :=
  (s.bytes.lookup a).getD 0

/-- `size_t` subtraction (wraps modulo `2^64`). -/
def wsub (a b : Nat) : Nat := (a % W + W - b % W) % W

/-- `round_up_multof` from src/malloc.c: round `n` up to a multiple of `f`.
The addition `n + (f - 1)` wraps modulo `2^64` as in C. -/
def round_up_multof (n f : Nat) : Nat :=
  (n + (f - 1)) % W / f * f

/-- `init_heap` from src/malloc.c, given the system page size and the
initial program break returned by `sbrk(page_size)`.  Installs one free
block spanning the first page. -/
def init_heap (ps b0 : Nat) : AllocState :=
  let s : AllocState :=
    { initialized := true
      page_size := ps
      start_brk := b0
      end_brk := b0 + ps
      free_blocks := b0
      last_free_block := b0
      hdrs := []
      words := []
      bytes := []
      mappings := []
      mmap_ctr := 0 }
  setHdr s b0 ⟨ps - HDR, 0, b0 + ps⟩

/-- `grow_heap` from src/malloc.c: grow the break by at least `amount`
bytes, in pages rounded up to the growth increment.  Returns the number
of pages grown and the new state (the modelled kernel always grants the
request). -/
def grow_heap (s : AllocState) (amount : Nat) : Nat × AllocState :=
  let num_pages := round_up_multof amount s.page_size / s.page_size
  let num_pages := round_up_multof num_pages HEAP_GROWTH_INCREMENT
  (num_pages, { s with end_brk := s.end_brk + num_pages * s.page_size })

/-- `create_free_block` from src/malloc.c.  `size` includes the header. -/
def create_free_block (s : AllocState) (loc prev_block next_block size : Nat) :
    AllocState :=
  -- loc->length = size - sizeof(block_meta)
  let s := setLength s loc (wsub size HDR)
  -- loc->next = next_block
  let s := setNext s loc next_block
  -- if (next_block != end_brk) next_block->prev = loc; else last_free_block = loc
  let s := if next_block ≠ s.end_brk then setPrev s next_block loc
           else { s with last_free_block := loc }
  -- loc->prev = prev_block
  let s := setPrev s loc prev_block
  -- if (prev_block != NULL) prev_block->next = loc
  if prev_block ≠ 0 then setNext s prev_block loc else s

/-- The absorb branch of `create_data_block` (src/malloc.c lines
165-179): give the whole free block's payload to the data block and
unlink it from the free list. -/
def cdb_absorb (s : AllocState) (loc length : Nat) : AllocState :=
  -- loc->length = length (give the leftover to the data block)
  let s := setLength s loc length
  let s :=
    if (getHdr s loc).prev ≠ 0 then
      let s := setNext s (getHdr s loc).prev (getHdr s loc).next
      if loc = s.last_free_block then
        { s with last_free_block := (getHdr s loc).prev }
      else s
    else s
  if (getHdr s loc).next ≠ s.end_brk then
    setPrev s (getHdr s loc).next (getHdr s loc).prev
  else s

/-- The `free_blocks` repair at the end of `create_data_block`
(src/malloc.c lines 184-204): if the allocated block was the first free
block, point `free_blocks` at the split-off block, or at the next free
block, growing the heap when the free list would become empty. -/
def cdb_repoint (s : AllocState) (loc : Nat) (new_free_block : Option Nat)
    (next_free_block : Nat) : AllocState :=
  if loc = s.free_blocks then
    match new_free_block with
    | some nfb => { s with free_blocks := nfb }
    | none =>
      let s := { s with free_blocks := next_free_block }
      let s :=
        if s.free_blocks = s.end_brk then
          let g := grow_heap s 1
          let s := g.2
          create_free_block s s.free_blocks 0 s.end_brk
            (s.end_brk - s.free_blocks)
        else s
      setPrev s s.free_blocks 0
  else s

/-- `create_data_block` from src/malloc.c.  Returns the payload pointer
and the new state. -/
def create_data_block (s : AllocState) (loc size length prev_free_block
    next_free_block : Nat) : Nat × AllocState :=
  -- loc->length = size
  let s := setLength s loc size
  let start_data := loc + HDR
  -- split if the leftover fits a header plus 8 bytes
  let res : Option Nat × AllocState :=
    if wsub length size ≥ HDR + 8 then
      (some (start_data + size),
        create_free_block s (start_data + size) prev_free_block next_free_block
          (wsub length size))
    else (none, cdb_absorb s loc length)
  -- loc->next = NULL (mark as data block)
  let s := setNext res.2 loc 0
  (start_data, cdb_repoint s loc res.1 next_free_block)

/-- Outcome of the first-fit walk in `malloc`: either a fitting block
(cursor, its length, the previous free block, the next free block), or
the walk fell off the list at `end_brk` with the given final previous
free block. -/
inductive FitResult
  | found (cursor length prev_free_block next_free_block : Nat)
  | nofit (prev_free_block : Nat)
deriving DecidableEq, Repr

/-- The `while (cursor != end_brk)` first-fit loop of `malloc`,
fuel-indexed (the fuel is taken ≥ the free-list length; running out of
fuel reports no fit, which never happens on well-formed states). -/
def ffLoop (s : AllocState) (size : Nat) :
    Nat → Nat → Nat → FitResult
  | fuel, cursor, prev_free_block =>
    if cursor = s.end_brk then .nofit prev_free_block
    else
      match fuel with
      | 0 => .nofit prev_free_block
      | fuel + 1 =>
        let length := (getHdr s cursor).length
        let next_free_block := (getHdr s cursor).next
        if length ≥ size then .found cursor length prev_free_block next_free_block
        else ffLoop s size fuel next_free_block cursor
        -- prev_free_block = cursor; cursor = cursor->next

/-- `malloc` from src/malloc.c.  Returns the payload pointer (0 = NULL)
and the new state. -/
def malloc (s : AllocState) (size₀ : Nat) : Nat × AllocState :=
  let s := if ¬s.initialized then init_heap s.page_size s.end_brk else s
  if size₀ = 0 then (0, s)
  else
    let size := round_up_multof size₀ 8
    if size ≥ MMAP_THRESHOLD then
      -- mmap path: extra space for the length metadata
      let mmap_size := round_up_multof (size + WORD) s.page_size
      let ptr := MMAP_BASE + s.mmap_ctr
      let s := { s with
                  mmap_ctr := s.mmap_ctr + mmap_size
                  mappings := (ptr, mmap_size) :: s.mappings }
      -- *ptr = mmap_size; 64-bit: return ptr + 1 (one size_t)
      let s := setWord s ptr mmap_size
      (ptr + WORD, s)
    else
      match ffLoop s size (s.end_brk + 1) s.free_blocks 0 with
      | .found cursor length prev_free_block next_free_block =>
        create_data_block s cursor size length prev_free_block next_free_block
      | .nofit prev_free_block =>
        -- no suitable free block: the heap must grow
        if prev_free_block ≠ 0 ∧
            prev_free_block + HDR + (getHdr s prev_free_block).length = s.end_brk
        then
          -- extend the trailing free block to the new end of the heap
          let length := (getHdr s prev_free_block).length
          let required_space := wsub (size + HDR) length
          let g := grow_heap s required_space
          let num_of_pages_grown := g.1
          let s := g.2
          let length := length + num_of_pages_grown * s.page_size
          let s := setLength s prev_free_block length
          let s := setNext s prev_free_block s.end_brk
          create_data_block s prev_free_block size length
            (getHdr s prev_free_block).prev s.end_brk
        else
          -- create a new free block in the freshly grown region
          let cursor := s.end_brk
          let g := grow_heap s (size + HDR)
          let new_block_size_pages := g.1
          let s := g.2
          let length := new_block_size_pages * s.page_size - HDR
          let s := create_free_block s cursor prev_free_block s.end_brk
            (new_block_size_pages * s.page_size)
          create_data_block s cursor size length prev_free_block s.end_brk

/-- The forward scan of `free`'s middle case: starting from
`(free_blocks, free_blocks->next)`, advance while `next_block < block`. -/
def scanFwd (s : AllocState) (block : Nat) :
    Nat → Nat → Nat → Nat × Nat
  | 0, prev_block, next_block => (prev_block, next_block)
  | fuel + 1, prev_block, next_block =>
    if next_block < block then
      scanFwd s block fuel (getHdr s prev_block).next (getHdr s next_block).next
    else (prev_block, next_block)

/-- The backward scan of `free`'s middle case: starting from
`(last_free_block->prev, last_free_block)`, retreat while
`prev_block > block`. -/
def scanBwd (s : AllocState) (block : Nat) :
    Nat → Nat → Nat → Nat × Nat
  | 0, prev_block, next_block => (prev_block, next_block)
  | fuel + 1, prev_block, next_block =>
    if prev_block > block then
      scanBwd s block fuel (getHdr s prev_block).prev (getHdr s next_block).prev
    else (prev_block, next_block)

/-- Case A of `free` (src/malloc.c lines 350-366): the freed block lies
after the last free block; merge with it when address-adjacent,
otherwise append it as the new last free block. -/
def free_caseA (s : AllocState) (block : Nat) : AllocState :=
  if s.last_free_block + HDR + (getHdr s s.last_free_block).length = block then
    setLength s s.last_free_block
      ((getHdr s s.last_free_block).length + (getHdr s block).length + HDR)
  else
    let s := setNext s s.last_free_block block
    let s := setPrev s block s.last_free_block
    let s := setNext s block s.end_brk
    { s with last_free_block := block }

/-- Case B of `free` (src/malloc.c lines 368-389): the freed block lies
before the first free block; absorb the first free block into it when
address-adjacent, otherwise prepend; it becomes the new `free_blocks`. -/
def free_caseB (s : AllocState) (block : Nat) : AllocState :=
  let s :=
    if block + HDR + (getHdr s block).length = s.free_blocks then
      let s := setLength s block
        ((getHdr s block).length + (getHdr s s.free_blocks).length + HDR)
      let s := setNext s block (getHdr s s.free_blocks).next
      if (getHdr s s.free_blocks).next ≠ s.end_brk then
        setPrev s (getHdr s s.free_blocks).next block
      else s
    else
      let s := setNext s block s.free_blocks
      setPrev s s.free_blocks block
  let s := setPrev s block 0
  { s with free_blocks := block }

/-- Case C of `free` (src/malloc.c lines 391-454): the freed block lies
between `free_blocks` and `last_free_block`; merge with the adjacent
successor if it is free, otherwise locate the enclosing free-list pair
by a bidirectional scan; finally merge with the predecessor when
address-adjacent, otherwise splice. -/
def free_caseC (s : AllocState) (block : Nat) : AllocState :=
  let next_block := block + HDR + (getHdr s block).length
  let pn : Nat × Nat × AllocState :=
    if (getHdr s next_block).next ≠ 0 then
      -- next adjacent block is free: merge with it
      let s := setLength s block
        ((getHdr s block).length + (getHdr s next_block).length + HDR)
      let s := setNext s block (getHdr s next_block).next
      let s :=
        if (getHdr s next_block).next ≠ s.end_brk then
          setPrev s (getHdr s next_block).next block
        else { s with last_free_block := block }
      -- prev_block = next_block->prev (read after the merge writes)
      ((getHdr s next_block).prev, next_block, s)
    else
      -- successor allocated: search the free list for the slot
      let pq : Nat × Nat :=
        if block < (s.start_brk + s.end_brk) % W / 2 then
          scanFwd s block (s.end_brk + 1) s.free_blocks
            (getHdr s s.free_blocks).next
        else
          scanBwd s block (s.end_brk + 1)
            (getHdr s s.last_free_block).prev s.last_free_block
      let prev_block := pq.1
      let next_block := pq.2
      let s := setNext s block next_block
      let s := setPrev s next_block block
      (prev_block, next_block, s)
  let prev_block := pn.1
  let s := pn.2.2
  -- if adjacent to prev_block, merge; else splice
  if prev_block + HDR + (getHdr s prev_block).length = block then
    let s := setLength s prev_block
      ((getHdr s prev_block).length + (getHdr s block).length + HDR)
    let s := setNext s prev_block (getHdr s block).next
    if (getHdr s block).next ≠ s.end_brk then
      setPrev s (getHdr s block).next prev_block
    else { s with last_free_block := prev_block }
  else
    let s := setNext s prev_block block
    setPrev s block prev_block

/-- `free` from src/malloc.c. -/
def free (s : AllocState) (ptr : Nat) : AllocState :=
  if ptr = 0 then s
  else if ptr < s.start_brk ∨ ptr > s.end_brk then
    -- outside the heap: mmapped; read the stored size and unmap
    let mmap_ptr := ptr - WORD
    let sz := getWord s mmap_ptr
    { s with mappings := s.mappings.filter (fun p => ¬(p.1 = mmap_ptr ∧ p.2 = sz)) }
  else
    let block := ptr - HDR
    if block > s.last_free_block then free_caseA s block
    else if block < s.free_blocks then free_caseB s block
    else free_caseC s block

/-- `memset(p, v, n)` on the byte store. -/
def memset (s : AllocState) (p v n : Nat) : AllocState :=
  match n with
  | 0 => s
  | n + 1 => { memset s p v n with bytes := (p + n, v) :: (memset s p v n).bytes }

/-- `memcpy(dst, src, n)` on the byte store. -/
def memcpy (s : AllocState) (dst src n : Nat) : AllocState :=
  match n with
  | 0 => s
  | n + 1 =>
    { memcpy s dst src n with
      bytes := (dst + n, getByte s (src + n)) :: (memcpy s dst src n).bytes }

/-- `memset` with its C precondition: passing a null pointer with a
nonzero count is undefined behaviour, modelled as `none`. -/
def memsetUB (s : AllocState) (p v n : Nat) : Option AllocState :=
  if p = 0 ∧ n ≠ 0 then none else some (memset s p v n)

/-- The body of `calloc` from src/malloc.c over an arbitrary underlying
allocator: compute `nmemb * size` (wrapping modulo `2^64` as in C),
return null if it is zero, otherwise allocate and pass the result
straight to `memset` — the source has no null check between the two. -/
def calloc_over (alloc : AllocState → Nat → Nat × AllocState)
    (s : AllocState) (nmemb size : Nat) : Option (Nat × AllocState) :=
  let real_size := nmemb * size % W
  if real_size = 0 then some (0, s)
  else
    let r := alloc s real_size
    (memsetUB r.2 r.1 0 real_size).map (fun s2 => (r.1, s2))

/-- `calloc` from src/malloc.c: `calloc_over` instantiated with `malloc`. -/
def calloc (s : AllocState) (nmemb size : Nat) : Option (Nat × AllocState) :=
  calloc_over malloc s nmemb size

/-- `realloc` from src/malloc.c. -/
def realloc (s : AllocState) (ptr size₀ : Nat) : Nat × AllocState :=
  let size := round_up_multof size₀ 8
  if ptr = 0 then malloc s size
  else if size = 0 then (0, free s ptr)
  else
    let r := malloc s size
    let new_ptr := r.1
    let s := r.2
    let old_size :=
      if ptr < s.start_brk ∨ ptr > s.end_brk then
        wsub (getWord s (ptr - WORD)) WORD
      else
        (getHdr s (ptr - HDR)).length
    let new_size :=
      if new_ptr < s.start_brk ∨ new_ptr > s.end_brk then
        wsub (getWord s (new_ptr - WORD)) WORD
      else size
    let min_size := if old_size < new_size then old_size else new_size
    let s := memcpy s new_ptr ptr min_size
    (new_ptr, free s ptr)

/-- Follow `next` from `a`, collecting block addresses until the
end-of-heap sentinel `end_brk`; `none` if `fuel` runs out first. -/
def chainF (s : AllocState) : Nat → Nat → Option (List Nat)
  | 0, _ => none
  | fuel + 1, a =>
    if a = s.end_brk then some []
    else (chainF s fuel (getHdr s a).next).map (a :: ·)

/-- The free list, read as the chain of block addresses from
`free_blocks` (fuel `end_brk + 1` covers any strictly increasing chain). -/
def chain (s : AllocState) : Option (List Nat) :=
  chainF s (s.end_brk + 1) s.free_blocks

/-- Number of free blocks on the free list. -/
def freeCount (s : AllocState) : Nat := ((chain s).getD []).length

/-- Total payload bytes held by the free list. -/
def freeBytes (s : AllocState) : Nat :=
  (((chain s).getD []).map (fun a => (getHdr s a).length)).sum

/-- The free-list traversal reaches `end_brk` and visits strictly
increasing addresses. -/
def chainSorted (s : AllocState) : Bool :=
  match chain s with
  | none => false
  | some l => (l.zip l.tail).all (fun p => p.1 < p.2)

/-- No two blocks of the free list are address-adjacent
(`a + HDR + a.length = b` for consecutive free blocks `a`, `b`). -/
def noAdjacentFree (s : AllocState) : Bool :=
  match chain s with
  | none => false
  | some l => (l.zip l.tail).all
      (fun p => p.1 + HDR + (getHdr s p.1).length ≠ p.2)

/-- `grow_heap` as executed when the kernel refuses to grow the break:
`sbrk` returns `(void*)-1` and src/malloc.c stores
`(void*)-1 + num_pages * page_size` into `end_brk` without any check
(src/malloc.c line 101). -/
def grow_heap_refused (s : AllocState) (amount : Nat) : Nat × AllocState :=
  let num_pages := round_up_multof amount s.page_size / s.page_size
  let num_pages := round_up_multof num_pages HEAP_GROWTH_INCREMENT
  (num_pages, { s with end_brk := (W - 1 + num_pages * s.page_size) % W })

/-- The large-allocation branch of `malloc` as executed when the kernel
refuses the mapping: `mmap` returns `MAP_FAILED = (void*)-1` and
src/malloc.c stores `mmap_size` through that pointer and returns
`MAP_FAILED + 8` without any check (src/malloc.c lines 238-250). -/
def malloc_mmap_refused (s : AllocState) (size₀ : Nat) : Nat × AllocState :=
  let size := round_up_multof size₀ 8
  let mmap_size := round_up_multof (size + WORD) s.page_size
  let ptr := W - 1
  let s := setWord s ptr mmap_size
  (ptr + WORD, s)

/-- A small concrete initialized heap (4 KiB page at break 4096) used
for witness instantiations. -/
def s₀ : AllocState := init_heap 4096 4096

/-- A concrete heap with two free blocks (at 4096 and 4224), used to
instantiate theorems about the allocation path away from the sole-block
case. -/
def s₁ : AllocState :=
  { initialized := true
    page_size := 4096
    start_brk := 4096
    end_brk := 8192
    free_blocks := 4096
    last_free_block := 4224
    hdrs := [(4096, ⟨64, 0, 4224⟩), (4224, ⟨64, 4096, 8192⟩)]
    words := []
    bytes := []
    mappings := []
    mmap_ctr := 0 }

/-- `Links s a l`: starting at address `a` and following `next`, one
visits exactly the blocks of `l` and then reaches the sentinel
`end_brk`. -/
def Links (s : AllocState) : Nat → List Nat → Prop
  | a, [] => a = s.end_brk
  | a, b :: l => a = b ∧ b ≠ s.end_brk ∧ Links s (getHdr s b).next l

/-- A free block lies inside the heap and has a payload of at least
the minimum split residue. -/
def blockOK (s : AllocState) (a : Nat) : Prop :=
  s.start_brk ≤ a ∧ a + HDR + (getHdr s a).length ≤ s.end_brk ∧
  8 ≤ (getHdr s a).length

/-- Consecutive free blocks: the extent of `a` ends strictly before `b`
(blocks are disjoint and not address-adjacent) and `b`'s back pointer
is `a`. -/
def pairOK (s : AllocState) (a b : Nat) : Prop :=
  a + HDR + (getHdr s a).length < b ∧ (getHdr s b).prev = a

/-- The structural free-list invariant of the allocator (spec §3,
invariants 1-6): the traversal from `free_blocks` terminates at
`end_brk`, visits a non-empty set of in-heap blocks in strictly
increasing order with no two address-adjacent, back links and the
`first_free`/`last_free` anchors are consistent. -/
def Inv (s : AllocState) : Prop :=
  match chain s with
  | none => False
  | some l =>
    l ≠ [] ∧ (∀ a ∈ l, blockOK s a) ∧ List.Chain' (pairOK s) l ∧
    (∀ h ∈ l.head?, (getHdr s h).prev = 0) ∧
    l.getLast? = some s.last_free_block ∧ 0 < s.start_brk ∧
    s.start_brk ≤ s.end_brk

/-- `p` is a payload pointer of a live allocated heap block whose
extent is disjoint from every free block. -/
def ValidFree (s : AllocState) (p : Nat) : Prop :=
  HDR ≤ p ∧ s.start_brk ≤ p - HDR ∧
  p - HDR + HDR + (getHdr s (p - HDR)).length ≤ s.end_brk ∧
  (getHdr s (p - HDR)).next = 0 ∧ 8 ≤ (getHdr s (p - HDR)).length ∧
  (match chain s with
   | none => False
   | some l => ∀ a ∈ l,
       a + HDR + (getHdr s a).length ≤ p - HDR ∨
       p - HDR + HDR + (getHdr s (p - HDR)).length ≤ a)

/-- `PrevLinksR s n r`: following `prev` from block `n` visits the
blocks of `r` in order and ends with a null `prev`. -/
def PrevLinksR (s : AllocState) : Nat → List Nat → Prop
  | n, [] => (getHdr s n).prev = 0
  | n, a :: r => (getHdr s n).prev = a ∧ PrevLinksR s a r

/-- `LinksSeg s a l c`: following `next` from `a` visits exactly `l`
and then reaches `c`. -/
def LinksSeg (s : AllocState) : Nat → List Nat → Nat → Prop
  | a, [], c => a = c
  | a, b :: l, c => a = b ∧ b ≠ s.end_brk ∧ LinksSeg s (getHdr s b).next l c

/-- The free-list conclusions of the chain claims: traversal reaches
`end_brk`, the list is non-empty, blocks are in-heap, consecutive
blocks are strictly increasing, non-adjacent and correctly
back-linked, and the head has a null `prev`.  (This is `Inv` without
the `last_free_block` anchor, which `free` can leave stale.) -/
def WeakInv (s : AllocState) (l : List Nat) : Prop :=
  chain s = some l ∧ l ≠ [] ∧ (∀ a ∈ l, blockOK s a) ∧
  List.Chain' (pairOK s) l ∧ (∀ h ∈ l.head?, (getHdr s h).prev = 0)

/-! ## Theorems -/

@[simp] theorem lookupHdr_cons_same (l : List (Nat × block_meta)) (a : Nat)
    (m : block_meta) : lookupHdr ((a, m) :: l) a = m := by
  simp [lookupHdr, List.lookup]

theorem lookupHdr_cons_ne (l : List (Nat × block_meta)) (a b : Nat)
    (m : block_meta) (h : b ≠ a) : lookupHdr ((a, m) :: l) b = lookupHdr l b := by
  have hb : (b == a) = false := by simpa using h
  simp [lookupHdr, List.lookup, hb]

theorem getHdr_eq (s : AllocState) (a : Nat) :
    getHdr s a = lookupHdr s.hdrs a := rfl

@[simp] theorem setHdr_hdrs (s : AllocState) (a : Nat) (m : block_meta) :
    (setHdr s a m).hdrs = (a, m) :: s.hdrs := rfl

@[simp] theorem getHdr_setHdr_same (s : AllocState) (a : Nat) (m : block_meta) :
    getHdr (setHdr s a m) a = m := by
  simp [getHdr_eq]

theorem getHdr_setHdr_ne (s : AllocState) (a b : Nat) (m : block_meta)
    (h : b ≠ a) : getHdr (setHdr s a m) b = getHdr s b := by
  simp [getHdr_eq, lookupHdr_cons_ne _ _ _ _ h]

@[simp] theorem getHdr_setLength_same (s : AllocState) (a v : Nat) :
    getHdr (setLength s a v) a = { getHdr s a with length := v } :=
  getHdr_setHdr_same ..

@[simp] theorem getHdr_setPrev_same (s : AllocState) (a v : Nat) :
    getHdr (setPrev s a v) a = { getHdr s a with prev := v } :=
  getHdr_setHdr_same ..

@[simp] theorem getHdr_setNext_same (s : AllocState) (a v : Nat) :
    getHdr (setNext s a v) a = { getHdr s a with next := v } :=
  getHdr_setHdr_same ..

theorem getHdr_setLength_ne (s : AllocState) (a b v : Nat) (h : b ≠ a) :
    getHdr (setLength s a v) b = getHdr s b :=
  getHdr_setHdr_ne _ _ _ _ h

theorem getHdr_setPrev_ne (s : AllocState) (a b v : Nat) (h : b ≠ a) :
    getHdr (setPrev s a v) b = getHdr s b :=
  getHdr_setHdr_ne _ _ _ _ h

theorem getHdr_setNext_ne (s : AllocState) (a b v : Nat) (h : b ≠ a) :
    getHdr (setNext s a v) b = getHdr s b :=
  getHdr_setHdr_ne _ _ _ _ h

@[simp] theorem setHdr_initialized (s : AllocState) (a : Nat) (m : block_meta) :
    (setHdr s a m).initialized = s.initialized := rfl

@[simp] theorem setHdr_page_size (s : AllocState) (a : Nat) (m : block_meta) :
    (setHdr s a m).page_size = s.page_size := rfl

@[simp] theorem setHdr_start_brk (s : AllocState) (a : Nat) (m : block_meta) :
    (setHdr s a m).start_brk = s.start_brk := rfl

@[simp] theorem setHdr_end_brk (s : AllocState) (a : Nat) (m : block_meta) :
    (setHdr s a m).end_brk = s.end_brk := rfl

@[simp] theorem setHdr_free_blocks (s : AllocState) (a : Nat) (m : block_meta) :
    (setHdr s a m).free_blocks = s.free_blocks := rfl

@[simp] theorem setHdr_last_free_block (s : AllocState) (a : Nat) (m : block_meta) :
    (setHdr s a m).last_free_block = s.last_free_block := rfl

@[simp] theorem setHdr_words (s : AllocState) (a : Nat) (m : block_meta) :
    (setHdr s a m).words = s.words := rfl

@[simp] theorem setHdr_bytes (s : AllocState) (a : Nat) (m : block_meta) :
    (setHdr s a m).bytes = s.bytes := rfl

@[simp] theorem setHdr_mappings (s : AllocState) (a : Nat) (m : block_meta) :
    (setHdr s a m).mappings = s.mappings := rfl

@[simp] theorem setHdr_mmap_ctr (s : AllocState) (a : Nat) (m : block_meta) :
    (setHdr s a m).mmap_ctr = s.mmap_ctr := rfl

@[simp] theorem setLength_eq (s : AllocState) (a v : Nat) :
    setLength s a v = setHdr s a { getHdr s a with length := v } := rfl

@[simp] theorem setPrev_eq (s : AllocState) (a v : Nat) :
    setPrev s a v = setHdr s a { getHdr s a with prev := v } := rfl

@[simp] theorem setNext_eq (s : AllocState) (a v : Nat) :
    setNext s a v = setHdr s a { getHdr s a with next := v } := rfl

@[simp] theorem grow_heap_proj (s : AllocState) (a : Nat) :
    (grow_heap s a).2.initialized = s.initialized ∧
    (grow_heap s a).2.page_size = s.page_size ∧
    (grow_heap s a).2.start_brk = s.start_brk ∧
    (grow_heap s a).2.free_blocks = s.free_blocks ∧
    (grow_heap s a).2.last_free_block = s.last_free_block ∧
    (grow_heap s a).2.hdrs = s.hdrs ∧
    (grow_heap s a).2.words = s.words ∧
    (grow_heap s a).2.bytes = s.bytes ∧
    (grow_heap s a).2.mappings = s.mappings ∧
    (grow_heap s a).2.mmap_ctr = s.mmap_ctr :=
  ⟨rfl, rfl, rfl, rfl, rfl, rfl, rfl, rfl, rfl, rfl⟩

@[simp] theorem getHdr_grow_heap (s : AllocState) (a b : Nat) :
    getHdr (grow_heap s a).2 b = getHdr s b := rfl

theorem grow_heap_end_brk (s : AllocState) (a : Nat) :
    (grow_heap s a).2.end_brk = s.end_brk + (grow_heap s a).1 * s.page_size := rfl

@[simp] theorem create_free_block_mappings (s : AllocState) (l p n sz : Nat) :
    (create_free_block s l p n sz).mappings = s.mappings := by
  unfold create_free_block
  repeat' split
  all_goals simp [apply_ite AllocState.mappings]

@[simp] theorem create_free_block_mmap_ctr (s : AllocState) (l p n sz : Nat) :
    (create_free_block s l p n sz).mmap_ctr = s.mmap_ctr := by
  unfold create_free_block
  repeat' split
  all_goals simp [apply_ite AllocState.mmap_ctr]

@[simp] theorem create_free_block_words (s : AllocState) (l p n sz : Nat) :
    (create_free_block s l p n sz).words = s.words := by
  unfold create_free_block
  repeat' split
  all_goals simp [apply_ite AllocState.words]

@[simp] theorem create_free_block_bytes (s : AllocState) (l p n sz : Nat) :
    (create_free_block s l p n sz).bytes = s.bytes := by
  unfold create_free_block
  repeat' split
  all_goals simp [apply_ite AllocState.bytes]

@[simp] theorem create_free_block_end_brk (s : AllocState) (l p n sz : Nat) :
    (create_free_block s l p n sz).end_brk = s.end_brk := by
  unfold create_free_block
  repeat' split
  all_goals simp [apply_ite AllocState.end_brk]

@[simp] theorem create_free_block_start_brk (s : AllocState) (l p n sz : Nat) :
    (create_free_block s l p n sz).start_brk = s.start_brk := by
  unfold create_free_block
  repeat' split
  all_goals simp [apply_ite AllocState.start_brk]

@[simp] theorem create_free_block_free_blocks (s : AllocState) (l p n sz : Nat) :
    (create_free_block s l p n sz).free_blocks = s.free_blocks := by
  unfold create_free_block
  repeat' split
  all_goals simp [apply_ite AllocState.free_blocks]

@[simp] theorem cdb_absorb_mappings (s : AllocState) (loc length : Nat) :
    (cdb_absorb s loc length).mappings = s.mappings := by
  unfold cdb_absorb
  repeat' split
  all_goals simp [apply_ite AllocState.mappings]

@[simp] theorem cdb_repoint_mappings (s : AllocState) (loc : Nat)
    (nfb : Option Nat) (n : Nat) :
    (cdb_repoint s loc nfb n).mappings = s.mappings := by
  unfold cdb_repoint
  repeat' split
  all_goals simp [apply_ite AllocState.mappings]

@[simp] theorem cdb_absorb_mmap_ctr (s : AllocState) (loc length : Nat) :
    (cdb_absorb s loc length).mmap_ctr = s.mmap_ctr := by
  unfold cdb_absorb
  repeat' split
  all_goals simp [apply_ite AllocState.mmap_ctr]

@[simp] theorem cdb_repoint_mmap_ctr (s : AllocState) (loc : Nat)
    (nfb : Option Nat) (n : Nat) :
    (cdb_repoint s loc nfb n).mmap_ctr = s.mmap_ctr := by
  unfold cdb_repoint
  repeat' split
  all_goals simp [apply_ite AllocState.mmap_ctr]

@[simp] theorem cdb_absorb_words (s : AllocState) (loc length : Nat) :
    (cdb_absorb s loc length).words = s.words := by
  unfold cdb_absorb
  repeat' split
  all_goals simp [apply_ite AllocState.words]

@[simp] theorem cdb_repoint_words (s : AllocState) (loc : Nat)
    (nfb : Option Nat) (n : Nat) :
    (cdb_repoint s loc nfb n).words = s.words := by
  unfold cdb_repoint
  repeat' split
  all_goals simp [apply_ite AllocState.words]

@[simp] theorem cdb_absorb_bytes (s : AllocState) (loc length : Nat) :
    (cdb_absorb s loc length).bytes = s.bytes := by
  unfold cdb_absorb
  repeat' split
  all_goals simp [apply_ite AllocState.bytes]

@[simp] theorem cdb_repoint_bytes (s : AllocState) (loc : Nat)
    (nfb : Option Nat) (n : Nat) :
    (cdb_repoint s loc nfb n).bytes = s.bytes := by
  unfold cdb_repoint
  repeat' split
  all_goals simp [apply_ite AllocState.bytes]

@[simp] theorem cdb_absorb_start_brk (s : AllocState) (loc length : Nat) :
    (cdb_absorb s loc length).start_brk = s.start_brk := by
  unfold cdb_absorb
  repeat' split
  all_goals simp [apply_ite AllocState.start_brk]

@[simp] theorem cdb_repoint_start_brk (s : AllocState) (loc : Nat)
    (nfb : Option Nat) (n : Nat) :
    (cdb_repoint s loc nfb n).start_brk = s.start_brk := by
  unfold cdb_repoint
  repeat' split
  all_goals simp [apply_ite AllocState.start_brk]

@[simp] theorem create_data_block_mappings (s : AllocState) (l sz len p n : Nat) :
    (create_data_block s l sz len p n).2.mappings = s.mappings := by
  unfold create_data_block
  split <;> simp [apply_ite AllocState.mappings]

@[simp] theorem create_data_block_mmap_ctr (s : AllocState) (l sz len p n : Nat) :
    (create_data_block s l sz len p n).2.mmap_ctr = s.mmap_ctr := by
  unfold create_data_block
  split <;> simp [apply_ite AllocState.mmap_ctr]

@[simp] theorem create_data_block_words (s : AllocState) (l sz len p n : Nat) :
    (create_data_block s l sz len p n).2.words = s.words := by
  unfold create_data_block
  split <;> simp [apply_ite AllocState.words]

@[simp] theorem create_data_block_bytes (s : AllocState) (l sz len p n : Nat) :
    (create_data_block s l sz len p n).2.bytes = s.bytes := by
  unfold create_data_block
  split <;> simp [apply_ite AllocState.bytes]

@[simp] theorem create_data_block_start_brk (s : AllocState) (l sz len p n : Nat) :
    (create_data_block s l sz len p n).2.start_brk = s.start_brk := by
  unfold create_data_block
  split <;> simp [apply_ite AllocState.start_brk]

theorem getByte_memset_in (s : AllocState) (p v n i : Nat) (h : i < n) :
    getByte (memset s p v n) (p + i) = v := by
  induction n with
  | zero => omega
  | succ n ih =>
    by_cases hi : i = n
    · subst hi
      simp [memset, getByte, List.lookup]
    · have : i < n := by omega
      simpa [memset, getByte, List.lookup,
        show ((p + i == p + n) = false) by simp; omega] using ih this

theorem bytes_not_touched (s : AllocState) :
    ∀ a m v, (setHdr s a m).bytes = s.bytes ∧ (setWord s a v).bytes = s.bytes :=
  fun _ _ _ => ⟨rfl, rfl⟩

theorem create_data_block_fst (s : AllocState) (loc size length p n : Nat) :
    (create_data_block s loc size length p n).1 = loc + HDR := rfl

theorem malloc_fst_ne_zero (s : AllocState) (n : Nat) (hn : n ≠ 0) :
    (malloc s n).1 ≠ 0 := by
  unfold malloc
  simp only [if_neg hn]
  repeat' split
  all_goals simp [create_data_block_fst, HDR, WORD]

/-- C10: when `nmemb * size ≠ 0` and the underlying allocation returns
null, `calloc` (src/malloc.c lines 465-481) does not return null to its
caller: the allocation result is passed to `memset` with no null check,
so there is no error branch propagating the failure — the null pointer
reaches `memset`, which is undefined behaviour (modelled as `none`). -/
theorem C10_calloc_no_null_check
    (alloc : AllocState → Nat → Nat × AllocState) (s : AllocState)
    (n sz : Nat) (h0 : n * sz % W ≠ 0)
    (hfail : (alloc s (n * sz % W)).1 = 0) :
    calloc_over alloc s n sz = none := by
  simp [calloc_over, memsetUB, h0, hfail]

theorem C10_witness :
    (1 * 8 % W ≠ 0) ∧
    ((fun (t : AllocState) (_ : Nat) => (0, t)) s₀ (1 * 8 % W)).1 = 0 ∧
    calloc_over (fun (t : AllocState) (_ : Nat) => (0, t)) s₀ 1 8 = none :=
  ⟨by decide, rfl,
    C10_calloc_no_null_check (fun t _ => (0, t)) s₀ 1 8 (by decide) rfl⟩

/-- C8: `calloc` returns null when `nmemb * size == 0` (computed modulo
`2^64` as in C); otherwise it allocates `nmemb * size` bytes with
`malloc` and zero-fills the payload with `memset` before returning, so
every byte of the returned payload reads zero. -/
theorem C8_calloc_zero_fill (s : AllocState) (n sz : Nat) :
    (n * sz % W = 0 → calloc s n sz = some (0, s)) ∧
    (n * sz % W ≠ 0 →
      calloc s n sz = some ((malloc s (n * sz % W)).1,
        memset (malloc s (n * sz % W)).2 (malloc s (n * sz % W)).1 0
          (n * sz % W)) ∧
      ∀ i < n * sz % W,
        getByte (memset (malloc s (n * sz % W)).2 (malloc s (n * sz % W)).1 0
          (n * sz % W)) ((malloc s (n * sz % W)).1 + i) = 0) := by
  constructor
  · intro h
    simp [calloc, calloc_over, h]
  · intro h
    refine ⟨?_, fun i hi => getByte_memset_in _ _ _ _ _ hi⟩
    simp [calloc, calloc_over, h, memsetUB, malloc_fst_ne_zero s _ h]

theorem C8_witness :
    (0 * 5 % W = 0) ∧ calloc s₀ 0 5 = some (0, s₀) ∧
    (3 * 8 % W ≠ 0) ∧
    (∀ i < 3 * 8 % W,
      getByte (memset (malloc s₀ (3 * 8 % W)).2 (malloc s₀ (3 * 8 % W)).1 0
        (3 * 8 % W)) ((malloc s₀ (3 * 8 % W)).1 + i) = 0) :=
  ⟨by decide, (C8_calloc_zero_fill s₀ 0 5).1 (by decide), by decide,
    ((C8_calloc_zero_fill s₀ 3 8).2 (by decide)).2⟩

theorem malloc_mmap_route (s : AllocState) (n : Nat) (hs : s.initialized = true)
    (hn : n ≠ 0) (hT : MMAP_THRESHOLD ≤ round_up_multof n 8) :
    (malloc s n).1 = MMAP_BASE + s.mmap_ctr + WORD ∧
    (malloc s n).2.mappings =
      (MMAP_BASE + s.mmap_ctr,
        round_up_multof (round_up_multof n 8 + WORD) s.page_size) :: s.mappings ∧
    (malloc s n).2.hdrs = s.hdrs ∧ (malloc s n).2.end_brk = s.end_brk ∧
    (malloc s n).2.free_blocks = s.free_blocks := by
  have h1 : (¬s.initialized = true) = False := by simp [hs]
  unfold malloc
  simp only [h1, if_false, if_neg hn, if_pos (ge_iff_le.mpr hT)]
  simp [setWord]

theorem malloc_heap_route (s : AllocState) (n : Nat) (hs : s.initialized = true)
    (hn : n ≠ 0) (hT : round_up_multof n 8 < MMAP_THRESHOLD) :
    (malloc s n).2.mappings = s.mappings ∧
    (malloc s n).2.mmap_ctr = s.mmap_ctr ∧
    (malloc s n).2.words = s.words := by
  have h1 : (¬s.initialized = true) = False := by simp [hs]
  have h2 : ¬(round_up_multof n 8 ≥ MMAP_THRESHOLD) := not_le.mpr hT
  unfold malloc
  simp only [h1, if_false, if_neg hn, if_neg h2]
  repeat' split
  all_goals simp

/-- C5 counterexample: at the concrete initialized heap `s₀`, a request
one byte below the 128 KiB threshold is routed through the *mapping*
path, not the heap path: the heap headers are untouched, a fresh
mapping is recorded, and the returned pointer is the mapped address. -/
theorem C5_one_below_counterexample :
    MMAP_THRESHOLD - 1 < MMAP_THRESHOLD ∧
    (malloc s₀ (MMAP_THRESHOLD - 1)).2.hdrs = s₀.hdrs ∧
    (malloc s₀ (MMAP_THRESHOLD - 1)).2.mappings ≠ s₀.mappings ∧
    (malloc s₀ (MMAP_THRESHOLD - 1)).1 = MMAP_BASE + WORD := by
  decide

/-- C5 (amended): the threshold comparison happens after rounding the
request up to a multiple of 8: a request exactly at the 128 KiB
threshold is routed through the mapping path; a request one byte below
rounds up to the threshold and is therefore *also* routed through the
mapping path; a request 8 bytes below (the largest whose rounded size is
below the threshold) is routed through the heap path, leaving the
mapping state untouched. -/
theorem C5_threshold_after_rounding (s : AllocState)
    (hs : s.initialized = true) :
    ((malloc s MMAP_THRESHOLD).2.mappings =
        (MMAP_BASE + s.mmap_ctr,
          round_up_multof (MMAP_THRESHOLD + WORD) s.page_size) :: s.mappings ∧
      (malloc s MMAP_THRESHOLD).2.hdrs = s.hdrs) ∧
    ((malloc s (MMAP_THRESHOLD - 1)).2.mappings =
        (MMAP_BASE + s.mmap_ctr,
          round_up_multof (MMAP_THRESHOLD + WORD) s.page_size) :: s.mappings ∧
      (malloc s (MMAP_THRESHOLD - 1)).2.hdrs = s.hdrs) ∧
    ((malloc s (MMAP_THRESHOLD - 8)).2.mappings = s.mappings ∧
      (malloc s (MMAP_THRESHOLD - 8)).2.words = s.words ∧
      (malloc s (MMAP_THRESHOLD - 8)).2.mmap_ctr = s.mmap_ctr) := by
  have e1 : round_up_multof MMAP_THRESHOLD 8 = MMAP_THRESHOLD := by decide
  have e2 : round_up_multof (MMAP_THRESHOLD - 1) 8 = MMAP_THRESHOLD := by decide
  have e3 : round_up_multof (MMAP_THRESHOLD - 8) 8 = MMAP_THRESHOLD - 8 := by
    decide
  have m1 := malloc_mmap_route s MMAP_THRESHOLD hs (by decide) (le_of_eq e1.symm)
  have m2 := malloc_mmap_route s (MMAP_THRESHOLD - 1) hs (by decide)
    (le_of_eq e2.symm)
  have m3 := malloc_heap_route s (MMAP_THRESHOLD - 8) hs (by decide)
    (by rw [e3]; decide)
  rw [e1] at m1
  rw [e2] at m2
  exact ⟨⟨m1.2.1, m1.2.2.1⟩, ⟨m2.2.1, m2.2.2.1⟩, m3.1, m3.2.2, m3.2.1⟩

theorem C5_threshold_witness :
    s₀.initialized = true ∧
    (malloc s₀ MMAP_THRESHOLD).2.mappings =
      (MMAP_BASE + s₀.mmap_ctr,
        round_up_multof (MMAP_THRESHOLD + WORD) s₀.page_size) :: s₀.mappings ∧
    (malloc s₀ (MMAP_THRESHOLD - 8)).2.mappings = s₀.mappings :=
  ⟨rfl, ((C5_threshold_after_rounding s₀ rfl).1).1,
    ((C5_threshold_after_rounding s₀ rfl).2.2).1⟩

theorem getHdr_create_free_block_loc (s : AllocState) (loc P N sz : Nat)
    (hP : P ≠ loc) (hN : N ≠ loc) :
    getHdr (create_free_block s loc P N sz) loc = ⟨wsub sz HDR, P, N⟩ := by
  unfold create_free_block
  simp only [setLength_eq, setPrev_eq, setNext_eq]
  split <;> split <;>
    simp [getHdr_eq, lookupHdr_cons_ne _ _ _ _ hP, lookupHdr_cons_ne _ _ _ _ hN,
      lookupHdr_cons_ne _ _ _ _ (Ne.symm hP), lookupHdr_cons_ne _ _ _ _ (Ne.symm hN)]

theorem getHdr_create_free_block_P (s : AllocState) (loc P N sz : Nat)
    (hP0 : P ≠ 0) (hPloc : P ≠ loc) (hPN : P ≠ N) :
    getHdr (create_free_block s loc P N sz) P =
      { getHdr s P with next := loc } := by
  unfold create_free_block
  simp only [setLength_eq, setPrev_eq, setNext_eq]
  rw [if_pos hP0]
  split <;>
    simp [getHdr_eq, lookupHdr_cons_ne _ _ _ _ hPloc,
      lookupHdr_cons_ne _ _ _ _ hPN]

theorem getHdr_create_free_block_N (s : AllocState) (loc P N sz : Nat)
    (hNE : N ≠ s.end_brk) (hNloc : N ≠ loc) (hNP : N ≠ P) :
    getHdr (create_free_block s loc P N sz) N =
      { getHdr s N with prev := loc } := by
  unfold create_free_block
  simp only [setLength_eq, setPrev_eq, setNext_eq]
  split <;> split
  all_goals
    simp_all [getHdr_eq, lookupHdr_cons_ne _ _ _ _ hNloc,
      lookupHdr_cons_ne _ _ _ _ hNP]

theorem getHdr_create_free_block_other (s : AllocState) (loc P N sz a : Nat)
    (ha : a ≠ loc) (haN : N ≠ s.end_brk → a ≠ N) (haP : P ≠ 0 → a ≠ P) :
    getHdr (create_free_block s loc P N sz) a = getHdr s a := by
  unfold create_free_block
  simp only [setLength_eq, setPrev_eq, setNext_eq]
  split
  · rename_i h0
    split
    · rename_i hE
      simp [getHdr_eq, lookupHdr_cons_ne _ _ _ _ ha,
        lookupHdr_cons_ne _ _ _ _ (haN (by simpa using hE)),
        lookupHdr_cons_ne _ _ _ _ (haP h0)]
    · simp [getHdr_eq, lookupHdr_cons_ne _ _ _ _ ha,
        lookupHdr_cons_ne _ _ _ _ (haP h0)]
  · rename_i h0
    split
    · rename_i hE
      simp [getHdr_eq, lookupHdr_cons_ne _ _ _ _ ha,
        lookupHdr_cons_ne _ _ _ _ (haN (by simpa using hE))]
    · simp [getHdr_eq, lookupHdr_cons_ne _ _ _ _ ha]

theorem create_free_block_last_free (s : AllocState) (loc P N sz : Nat) :
    (create_free_block s loc P N sz).last_free_block =
      if N = s.end_brk then loc else s.last_free_block := by
  unfold create_free_block
  simp only [setLength_eq, setPrev_eq, setNext_eq]
  split <;> split <;> simp_all

/-- C4: src/malloc.c never checks the kernel result.  When the kernel
refuses, the mmap branch writes the mapping size through
`MAP_FAILED = (void*)-1` and returns `MAP_FAILED + 8`, a non-null value,
with the state mutated; a refused `sbrk` still updates `end_brk`.
Contrary to the claim, the operation does not return null and the state
before and after the failed call is not identical. -/
theorem C4_kernel_refusal_not_handled :
    ((malloc_mmap_refused s₀ MMAP_THRESHOLD).1 ≠ 0 ∧
     (malloc_mmap_refused s₀ MMAP_THRESHOLD).1 = W - 1 + WORD ∧
     (malloc_mmap_refused s₀ MMAP_THRESHOLD).2 ≠ s₀) ∧
    ((grow_heap_refused s₀ 1).2.end_brk ≠ s₀.end_brk ∧
     (grow_heap_refused s₀ 1).2 ≠ s₀) := by
  decide

theorem wsub_eq (a b : Nat) (hb : b ≤ a) (ha : a < W) : wsub a b = a - b := by
  unfold wsub
  rw [Nat.mod_eq_of_lt ha, Nat.mod_eq_of_lt (lt_of_le_of_lt hb ha)]
  have h1 : a + W - b = (a - b) + W := by omega
  rw [h1, Nat.add_mod_right, Nat.mod_eq_of_lt (by omega)]

theorem cdb_absorb_loc (s : AllocState) (loc length P N : Nat)
    (hp : (getHdr s loc).prev = P) (hn : (getHdr s loc).next = N)
    (hPloc : P ≠ loc) (hNloc : N ≠ loc) :
    getHdr (cdb_absorb s loc length) loc = ⟨length, P, N⟩ := by
  rw [getHdr_eq] at hp hn
  unfold cdb_absorb
  simp only [setLength_eq, setPrev_eq, setNext_eq, getHdr_eq, setHdr_hdrs,
    setHdr_end_brk, setHdr_last_free_block, lookupHdr_cons_same,
    lookupHdr_cons_ne _ _ _ _ (Ne.symm hPloc),
    lookupHdr_cons_ne _ _ _ _ (Ne.symm hNloc),
    lookupHdr_cons_ne _ _ _ _ hPloc, lookupHdr_cons_ne _ _ _ _ hNloc, hp, hn]
  repeat' split
  all_goals
    simp [getHdr_eq, lookupHdr_cons_ne _ _ _ _ (Ne.symm hPloc),
      lookupHdr_cons_ne _ _ _ _ (Ne.symm hNloc), hp, hn]

theorem cdb_absorb_P_next (s : AllocState) (loc length P N : Nat)
    (hp : (getHdr s loc).prev = P) (hn : (getHdr s loc).next = N)
    (hPloc : P ≠ loc) (hNloc : N ≠ loc) (hPN : P ≠ N) (hP0 : P ≠ 0) :
    (getHdr (cdb_absorb s loc length) P).next = N := by
  rw [getHdr_eq] at hp hn
  unfold cdb_absorb
  simp only [setLength_eq, setPrev_eq, setNext_eq, getHdr_eq, setHdr_hdrs,
    setHdr_end_brk, setHdr_last_free_block, lookupHdr_cons_same,
    lookupHdr_cons_ne _ _ _ _ (Ne.symm hPloc),
    lookupHdr_cons_ne _ _ _ _ (Ne.symm hNloc),
    lookupHdr_cons_ne _ _ _ _ hPloc, lookupHdr_cons_ne _ _ _ _ hNloc,
    lookupHdr_cons_ne _ _ _ _ hPN, lookupHdr_cons_ne _ _ _ _ (Ne.symm hPN),
    hp, hn]
  rw [if_pos hP0]
  repeat' split
  all_goals
    simp [getHdr_eq, lookupHdr_cons_ne _ _ _ _ hPloc,
      lookupHdr_cons_ne _ _ _ _ hNloc, lookupHdr_cons_ne _ _ _ _ hPN,
      lookupHdr_cons_ne _ _ _ _ (Ne.symm hPloc),
      lookupHdr_cons_ne _ _ _ _ (Ne.symm hNloc),
      lookupHdr_cons_ne _ _ _ _ (Ne.symm hPN), hp, hn]

theorem cdb_absorb_N_prev (s : AllocState) (loc length P N : Nat)
    (hp : (getHdr s loc).prev = P) (hn : (getHdr s loc).next = N)
    (hPloc : P ≠ loc) (hNloc : N ≠ loc) (hPN : P ≠ N) (hNE : N ≠ s.end_brk) :
    (getHdr (cdb_absorb s loc length) N).prev = P := by
  rw [getHdr_eq] at hp hn
  unfold cdb_absorb
  simp only [setLength_eq, setPrev_eq, setNext_eq, getHdr_eq, setHdr_hdrs,
    setHdr_end_brk, setHdr_last_free_block, lookupHdr_cons_same,
    lookupHdr_cons_ne _ _ _ _ (Ne.symm hPloc),
    lookupHdr_cons_ne _ _ _ _ (Ne.symm hNloc),
    lookupHdr_cons_ne _ _ _ _ hPloc, lookupHdr_cons_ne _ _ _ _ hNloc,
    lookupHdr_cons_ne _ _ _ _ hPN, lookupHdr_cons_ne _ _ _ _ (Ne.symm hPN),
    hp, hn]
  repeat' split
  all_goals
    try (simp only [getHdr_eq, setHdr_hdrs, setHdr_end_brk, lookupHdr_cons_same,
      lookupHdr_cons_ne _ _ _ _ hPloc, lookupHdr_cons_ne _ _ _ _ hNloc,
      lookupHdr_cons_ne _ _ _ _ hPN, lookupHdr_cons_ne _ _ _ _ (Ne.symm hPloc),
      lookupHdr_cons_ne _ _ _ _ (Ne.symm hNloc),
      lookupHdr_cons_ne _ _ _ _ (Ne.symm hPN)] at *)
  all_goals try (exfalso; omega)
  all_goals
    try simp [getHdr_eq, lookupHdr_cons_ne _ _ _ _ hPloc,
      lookupHdr_cons_ne _ _ _ _ hNloc, lookupHdr_cons_ne _ _ _ _ hPN,
      lookupHdr_cons_ne _ _ _ _ (Ne.symm hPloc),
      lookupHdr_cons_ne _ _ _ _ (Ne.symm hNloc),
      lookupHdr_cons_ne _ _ _ _ (Ne.symm hPN), hp, hn]

theorem cdb_absorb_last_free_pos (s : AllocState) (loc length P N : Nat)
    (hp : (getHdr s loc).prev = P) (hn : (getHdr s loc).next = N)
    (hPloc : P ≠ loc) (hNloc : N ≠ loc) (hP0 : P ≠ 0)
    (hLF : loc = s.last_free_block) :
    (cdb_absorb s loc length).last_free_block = P := by
  rw [getHdr_eq] at hp hn
  unfold cdb_absorb
  simp only [setLength_eq, setPrev_eq, setNext_eq, getHdr_eq, setHdr_hdrs,
    setHdr_end_brk, setHdr_last_free_block, lookupHdr_cons_same,
    lookupHdr_cons_ne _ _ _ _ (Ne.symm hPloc),
    lookupHdr_cons_ne _ _ _ _ (Ne.symm hNloc),
    lookupHdr_cons_ne _ _ _ _ hPloc, lookupHdr_cons_ne _ _ _ _ hNloc,
    hp, hn]
  rw [if_pos hP0, if_pos hLF]
  split <;> simp

theorem cdb_absorb_last_free_stays (s : AllocState) (loc length P N : Nat)
    (hp : (getHdr s loc).prev = P) (hn : (getHdr s loc).next = N)
    (hPloc : P ≠ loc) (hNloc : N ≠ loc)
    (h : P = 0 ∨ loc ≠ s.last_free_block) :
    (cdb_absorb s loc length).last_free_block = s.last_free_block := by
  rw [getHdr_eq] at hp hn
  unfold cdb_absorb
  simp only [setLength_eq, setPrev_eq, setNext_eq, getHdr_eq, setHdr_hdrs,
    setHdr_end_brk, setHdr_last_free_block, lookupHdr_cons_same,
    lookupHdr_cons_ne _ _ _ _ (Ne.symm hPloc),
    lookupHdr_cons_ne _ _ _ _ (Ne.symm hNloc),
    lookupHdr_cons_ne _ _ _ _ hPloc, lookupHdr_cons_ne _ _ _ _ hNloc,
    hp, hn]
  repeat' split
  all_goals try (exfalso; omega)
  all_goals simp

theorem cdb_absorb_free_blocks (s : AllocState) (loc length : Nat) :
    (cdb_absorb s loc length).free_blocks = s.free_blocks := by
  unfold cdb_absorb
  repeat' split
  all_goals simp [apply_ite AllocState.free_blocks]

theorem cdb_absorb_end_brk (s : AllocState) (loc length : Nat) :
    (cdb_absorb s loc length).end_brk = s.end_brk := by
  unfold cdb_absorb
  repeat' split
  all_goals simp [apply_ite AllocState.end_brk]

theorem cdb_repoint_some (s : AllocState) (loc f n : Nat) :
    cdb_repoint s loc (some f) n =
      if loc = s.free_blocks then { s with free_blocks := f } else s := rfl

theorem cdb_repoint_none_notfb (s : AllocState) (loc n : Nat)
    (h : loc ≠ s.free_blocks) : cdb_repoint s loc none n = s := by
  unfold cdb_repoint
  rw [if_neg h]

theorem cdb_repoint_none_fb (s : AllocState) (loc n : Nat)
    (hfb : loc = s.free_blocks) (hne : n ≠ s.end_brk) :
    cdb_repoint s loc none n =
      setPrev { s with free_blocks := n } n 0 := by
  unfold cdb_repoint
  rw [if_pos hfb]
  simp only []
  rw [if_neg hne]

theorem getHdr_cdb_repoint_some (s : AllocState) (loc f n a : Nat) :
    getHdr (cdb_repoint s loc (some f) n) a = getHdr s a := by
  rw [cdb_repoint_some]
  split <;> rfl

theorem cdb_repoint_some_free_blocks (s : AllocState) (loc f n : Nat) :
    (cdb_repoint s loc (some f) n).free_blocks =
      if loc = s.free_blocks then f else s.free_blocks := by
  rw [cdb_repoint_some]
  split <;> simp

theorem cdb_repoint_some_last_free (s : AllocState) (loc f n : Nat) :
    (cdb_repoint s loc (some f) n).last_free_block = s.last_free_block := by
  rw [cdb_repoint_some]
  split <;> rfl

theorem cdb_repoint_some_end_brk (s : AllocState) (loc f n : Nat) :
    (cdb_repoint s loc (some f) n).end_brk = s.end_brk := by
  rw [cdb_repoint_some]
  split <;> rfl

/-- C3: a small allocation satisfied from a first-fit free block B
(here at address `loc`, with payload `length`, free-list neighbours `P`
and `N`): with `remainder = length - size`, if `remainder ≥ HDR + 8` the
block is split — the data block keeps `length = size`, a new free block
of length `remainder - HDR` is created at `loc + HDR + size` inheriting
B's position (`prev = P`, `next = N`, with `P.next`, `N.prev`,
`last_free_block`, `free_blocks` repointed to it as appropriate);
otherwise the data block absorbs the whole payload
(`length = length`) and B is unlinked (`P.next = N`, `N.prev`
repointed, `last_free_block`/`free_blocks` updated if B was either).
In both cases the data block's `next` is set to null.  (The absorb
branch that empties the free list is excluded here; it is the subject
of the heap-growth claim.) -/
theorem C3_split_or_absorb (s : AllocState) (loc size length P N : Nat)
    (hp : (getHdr s loc).prev = P) (hn : (getHdr s loc).next = N)
    (hsz : size ≤ length) (hlenW : length < W)
    (hloc : 0 < loc)
    (hP : P = 0 ∨ P < loc)
    (hNloc : loc < N) (hNE : N ≤ s.end_brk)
    (hext : loc + HDR + length ≤ s.end_brk)
    (hNfar : N = s.end_brk ∨ loc + HDR + length ≤ N)
    (hnotsole : ¬(loc = s.free_blocks ∧ N = s.end_brk)) :
    (create_data_block s loc size length P N).1 = loc + HDR ∧
    (getHdr (create_data_block s loc size length P N).2 loc).next = 0 ∧
    (HDR + 8 ≤ length - size →
      (getHdr (create_data_block s loc size length P N).2 loc).length = size ∧
      getHdr (create_data_block s loc size length P N).2 (loc + HDR + size) =
        ⟨length - size - HDR, P, N⟩ ∧
      (P ≠ 0 →
        (getHdr (create_data_block s loc size length P N).2 P).next =
          loc + HDR + size) ∧
      (N ≠ s.end_brk →
        (getHdr (create_data_block s loc size length P N).2 N).prev =
          loc + HDR + size) ∧
      (N = s.end_brk →
        (create_data_block s loc size length P N).2.last_free_block =
          loc + HDR + size) ∧
      (create_data_block s loc size length P N).2.free_blocks =
        (if loc = s.free_blocks then loc + HDR + size else s.free_blocks)) ∧
    (length - size < HDR + 8 →
      (getHdr (create_data_block s loc size length P N).2 loc).length =
        length ∧
      (P ≠ 0 →
        (getHdr (create_data_block s loc size length P N).2 P).next = N ∧
        (loc = s.last_free_block →
          (create_data_block s loc size length P N).2.last_free_block = P)) ∧
      (N ≠ s.end_brk →
        (getHdr (create_data_block s loc size length P N).2 N).prev =
          (if loc = s.free_blocks then 0 else P)) ∧
      (create_data_block s loc size length P N).2.free_blocks =
        (if loc = s.free_blocks then N else s.free_blocks)) := by
  have hHDR : HDR = 32 := rfl
  have hPloc : P ≠ loc := by rcases hP with h | h <;> omega
  have hNloc' : N ≠ loc := by omega
  have hPN : P ≠ N := by rcases hP with h | h <;> omega
  have hFloc : loc + HDR + size ≠ loc := by omega
  have hPF : P ≠ loc + HDR + size := by rcases hP with h | h <;> omega
  have e1 : wsub length size = length - size := wsub_eq _ _ hsz hlenW
  have hp1 : (getHdr (setLength s loc size) loc).prev = P := by simp [hp]
  have hn1 : (getHdr (setLength s loc size) loc).next = N := by simp [hn]
  by_cases hrem : HDR + 8 ≤ length - size
  · -- split
    have hNF : N ≠ loc + HDR + size := by rcases hNfar with h | h <;> omega
    unfold create_data_block
    simp only [e1, ge_iff_le, if_pos hrem]
    refine ⟨by trivial, ?_, ?_, fun h => absurd hrem (by omega)⟩
    · rw [getHdr_cdb_repoint_some, getHdr_setNext_same,
        getHdr_create_free_block_other _ _ _ _ _ _ hFloc.symm
          (fun _ => hNloc'.symm) (fun _ => hPloc.symm)]
    · intro _
      refine ⟨?_, ?_, ?_, ?_, ?_, ?_⟩
      · rw [getHdr_cdb_repoint_some, getHdr_setNext_same,
          getHdr_create_free_block_other _ _ _ _ _ _ hFloc.symm
            (fun _ => hNloc'.symm) (fun _ => hPloc.symm)]
        simp
      · rw [getHdr_cdb_repoint_some, getHdr_setNext_ne _ _ _ _ hFloc,
          getHdr_create_free_block_loc _ _ _ _ _ hPF hNF,
          wsub_eq _ _ (by omega) (by omega)]
      · intro hP0
        rw [getHdr_cdb_repoint_some, getHdr_setNext_ne _ _ _ _ hPloc,
          getHdr_create_free_block_P _ _ _ _ _ hP0 hPF hPN]
      · intro hNE'
        rw [getHdr_cdb_repoint_some, getHdr_setNext_ne _ _ _ _ hNloc',
          getHdr_create_free_block_N _ _ _ _ _ (by simpa using hNE') hNF
            hPN.symm]
      · intro hNEq
        rw [cdb_repoint_some_last_free]
        simp only [setNext_eq, setHdr_last_free_block]
        rw [create_free_block_last_free]
        simp [hNEq]
      · rw [cdb_repoint_some_free_blocks]
        simp [create_free_block_free_blocks]
  · -- absorb
    unfold create_data_block
    simp only [e1, ge_iff_le, if_neg hrem]
    have habs_fb : ∀ X : AllocState,
        (setNext (cdb_absorb (setLength s loc size) loc length) loc 0).free_blocks
          = s.free_blocks := by
      intro _
      simp [cdb_absorb_free_blocks]
    have habs_eb :
        (setNext (cdb_absorb (setLength s loc size) loc length) loc 0).end_brk
          = s.end_brk := by
      simp [cdb_absorb_end_brk]
    have habsloc := cdb_absorb_loc (setHdr s loc { getHdr s loc with length := size })
        loc length P N (by simp [hp]) (by simp [hn]) hPloc hNloc'
    by_cases hfb : loc = s.free_blocks
    · have hNEne : N ≠ s.end_brk := fun h => hnotsole ⟨hfb, h⟩
      rw [cdb_repoint_none_fb _ _ _ (by rw [habs_fb (setLength s loc size)]; exact hfb)
        (by rw [habs_eb]; exact hNEne)]
      refine ⟨by trivial, ?_, fun h => absurd h (by omega), ?_⟩
      · simp only [setPrev_eq]
        rw [getHdr_setHdr_ne _ _ _ _ hNloc'.symm]
        have : getHdr ({ (setNext (cdb_absorb (setLength s loc size) loc length) loc 0) with free_blocks := N } : AllocState) loc = getHdr (setNext (cdb_absorb (setLength s loc size) loc length) loc 0) loc := rfl
        rw [this, getHdr_setNext_same]
      · intro _
        refine ⟨?_, ?_, ?_, ?_⟩
        · simp only [setPrev_eq]
          rw [getHdr_setHdr_ne _ _ _ _ hNloc'.symm]
          have : getHdr ({ (setNext (cdb_absorb (setLength s loc size) loc length) loc 0) with free_blocks := N } : AllocState) loc = getHdr (setNext (cdb_absorb (setLength s loc size) loc length) loc 0) loc := rfl
          rw [this, getHdr_setNext_same]
          simp [habsloc]
        · intro hP0
          constructor
          · simp only [setPrev_eq]
            rw [getHdr_setHdr_ne _ _ _ _ hPN]
            have : getHdr ({ (setNext (cdb_absorb (setLength s loc size) loc length) loc 0) with free_blocks := N } : AllocState) P = getHdr (setNext (cdb_absorb (setLength s loc size) loc length) loc 0) P := rfl
            rw [this, getHdr_setNext_ne _ _ _ _ hPloc]
            exact cdb_absorb_P_next _ _ _ _ _ hp1 hn1 hPloc hNloc' hPN hP0
          · intro hLF
            simp only [setPrev_eq, setHdr_last_free_block, setNext_eq]
            exact cdb_absorb_last_free_pos _ _ _ _ _ hp1 hn1 hPloc hNloc' hP0
              (by simpa using hLF)
        · intro hNE'
          simp only [setPrev_eq]
          rw [getHdr_setHdr_same]
          simp [hfb]
        · simp only [setPrev_eq, setHdr_free_blocks]
          simp [hfb]
    · rw [cdb_repoint_none_notfb _ _ _ (by rw [habs_fb (setLength s loc size)]; exact hfb)]
      refine ⟨by trivial, ?_, fun h => absurd h (by omega), ?_⟩
      · rw [getHdr_setNext_same]
      · intro _
        refine ⟨?_, ?_, ?_, ?_⟩
        · rw [getHdr_setNext_same]
          simp [habsloc]
        · intro hP0
          constructor
          · rw [getHdr_setNext_ne _ _ _ _ hPloc]
            exact cdb_absorb_P_next _ _ _ _ _ hp1 hn1 hPloc hNloc' hPN hP0
          · intro hLF
            simp only [setNext_eq, setHdr_last_free_block]
            exact cdb_absorb_last_free_pos _ _ _ _ _ hp1 hn1 hPloc hNloc' hP0
              (by simpa using hLF)
        · intro hNE'
          rw [getHdr_setNext_ne _ _ _ _ hNloc']
          rw [if_neg hfb]
          exact cdb_absorb_N_prev _ _ _ _ _ hp1 hn1 hPloc hNloc' hPN
            (by simpa using hNE')
        · simp [cdb_absorb_free_blocks, hfb]


theorem C3_split_or_absorb_witness :
    (getHdr s₁ 4096).prev = 0 ∧ (getHdr s₁ 4096).next = 4224 ∧
    HDR + 8 ≤ 64 - 16 ∧
    getHdr (create_data_block s₁ 4096 16 64 0 4224).2 (4096 + HDR + 16) =
      ⟨64 - 16 - HDR, 0, 4224⟩ :=
  ⟨by decide, by decide, by decide,
    ((C3_split_or_absorb s₁ 4096 16 64 0 4224 (by decide) (by decide)
      (by decide) (by decide) (by decide) (by decide) (by decide) (by decide)
      (by decide) (by decide) (by decide)).2.2.1 (by decide)).2.1⟩

theorem grow_heap_one (s : AllocState) (hps : 0 < s.page_size)
    (hpsW : s.page_size < W) :
    (grow_heap s 1).1 = HEAP_GROWTH_INCREMENT := by
  unfold grow_heap round_up_multof
  have h1 : 1 + (s.page_size - 1) = s.page_size := by omega
  rw [h1, Nat.mod_eq_of_lt hpsW, Nat.div_self hps, one_mul,
    Nat.div_self hps]
  show (1 + (HEAP_GROWTH_INCREMENT - 1)) % W / HEAP_GROWTH_INCREMENT *
    HEAP_GROWTH_INCREMENT = HEAP_GROWTH_INCREMENT
  decide

theorem chainF_nil (s : AllocState) (fuel a : Nat) (hf : 0 < fuel)
    (ha : a = s.end_brk) : chainF s fuel a = some [] := by
  obtain ⟨f, rfl⟩ : ∃ f, fuel = f + 1 := ⟨fuel - 1, by omega⟩
  simp [chainF, ha]

theorem chainF_cons (s : AllocState) (fuel a : Nat) (ha : a ≠ s.end_brk) :
    chainF s (fuel + 1) a = (chainF s fuel (getHdr s a).next).map (a :: ·) := by
  simp [chainF, ha]

theorem cdb_absorb_page_size (s : AllocState) (loc length : Nat) :
    (cdb_absorb s loc length).page_size = s.page_size := by
  unfold cdb_absorb
  repeat' split
  all_goals simp [apply_ite AllocState.page_size]

theorem create_free_block_page_size (s : AllocState) (l p n sz : Nat) :
    (create_free_block s l p n sz).page_size = s.page_size := by
  unfold create_free_block
  repeat' split
  all_goals simp [apply_ite AllocState.page_size]

/-- C9: when the absorb branch of the allocation path removes the sole
free block (the allocated block was `free_blocks` and its successor was
the end-of-heap sentinel), `create_data_block` immediately grows the
heap by one growth quantum (`HEAP_GROWTH_INCREMENT` pages) and installs
a fresh trailing free block spanning the new region, so at exit the
free list is the single fresh block: non-empty, and invariant (1)
(`start_brk ≤ first_free ≤ last_free < end_brk`) holds. -/
theorem C9_absorb_sole_grows (s : AllocState) (loc size length P N : Nat)
    (hp : (getHdr s loc).prev = P) (hn : (getHdr s loc).next = N)
    (hsz : size ≤ length) (hlenW : length < W)
    (hloc : 0 < loc) (hPloc : P ≠ loc) (hNloc : loc < N)
    (hfb : loc = s.free_blocks) (hNE : N = s.end_brk)
    (habs : length - size < HDR + 8)
    (hps : HDR ≤ s.page_size) (hpsW : 4 * s.page_size < W)
    (hstart : s.start_brk ≤ s.end_brk) :
    (create_data_block s loc size length P N).2.end_brk =
      s.end_brk + HEAP_GROWTH_INCREMENT * s.page_size ∧
    (create_data_block s loc size length P N).2.free_blocks = s.end_brk ∧
    (create_data_block s loc size length P N).2.last_free_block = s.end_brk ∧
    getHdr (create_data_block s loc size length P N).2 s.end_brk =
      ⟨HEAP_GROWTH_INCREMENT * s.page_size - HDR, 0,
        s.end_brk + HEAP_GROWTH_INCREMENT * s.page_size⟩ ∧
    chain (create_data_block s loc size length P N).2 = some [s.end_brk] ∧
    s.start_brk ≤ (create_data_block s loc size length P N).2.free_blocks ∧
    (create_data_block s loc size length P N).2.free_blocks ≤
      (create_data_block s loc size length P N).2.last_free_block ∧
    (create_data_block s loc size length P N).2.last_free_block <
      (create_data_block s loc size length P N).2.end_brk := by
  have hHDR : HDR = 32 := rfl
  have hQ : HEAP_GROWTH_INCREMENT = 4 := rfl
  have e1 : wsub length size = length - size := wsub_eq _ _ hsz hlenW
  unfold create_data_block
  simp only [e1, ge_iff_le, if_neg (by omega : ¬(HDR + 8 ≤ length - size))]
  have s3eq : (setNext (cdb_absorb (setLength s loc size) loc length) loc 0).free_blocks = s.free_blocks := by
    simp [cdb_absorb_free_blocks]
  have s3eb : (setNext (cdb_absorb (setLength s loc size) loc length) loc 0).end_brk = s.end_brk := by
    simp [cdb_absorb_end_brk]
  have s3ps : (setNext (cdb_absorb (setLength s loc size) loc length) loc 0).page_size = s.page_size := by
    simp [cdb_absorb_page_size]
  unfold cdb_repoint
  rw [if_pos (by rw [s3eq]; exact hfb)]
  simp only []
  rw [if_pos (by simp only [AllocState.free_blocks, AllocState.end_brk, s3eb]; exact hNE ▸ rfl)]
  set s4 : AllocState :=
    { setNext (cdb_absorb (setLength s loc size) loc length) loc 0 with
      free_blocks := N } with hs4
  have hs4ps : s4.page_size = s.page_size := s3ps
  have hs4eb : s4.end_brk = s.end_brk := s3eb
  have hs4fb : s4.free_blocks = N := rfl
  have hE0 : 0 < s.end_brk := by omega
  have g1 : (grow_heap s4 1).1 = HEAP_GROWTH_INCREMENT :=
    grow_heap_one s4 (by rw [hs4ps]; omega) (by rw [hs4ps]; omega)
  have g2 : (grow_heap s4 1).2.end_brk =
      s.end_brk + HEAP_GROWTH_INCREMENT * s.page_size := by
    rw [grow_heap_end_brk, g1, hs4eb, hs4ps]
  have g3 : (grow_heap s4 1).2.free_blocks = s.end_brk := by
    have h := (grow_heap_proj s4 1).2.2.2.1
    rw [h, hs4fb, hNE]
  rw [g3, g2]
  have hsub : s.end_brk + HEAP_GROWTH_INCREMENT * s.page_size - s.end_brk =
      HEAP_GROWTH_INCREMENT * s.page_size := by omega
  rw [hsub]
  have hQps : 0 < HEAP_GROWTH_INCREMENT * s.page_size := by
    rw [hQ]; omega
  have hQps1 : HDR ≤ HEAP_GROWTH_INCREMENT * s.page_size := by
    rw [hQ]; omega
  have hQpsW : HEAP_GROWTH_INCREMENT * s.page_size < W := by
    rw [hQ]; omega
  have g4 : (create_free_block (grow_heap s4 1).2 s.end_brk 0
      (s.end_brk + HEAP_GROWTH_INCREMENT * s.page_size)
      (HEAP_GROWTH_INCREMENT * s.page_size)).free_blocks = s.end_brk := by
    rw [create_free_block_free_blocks]; exact g3
  rw [g4]
  have g5 : getHdr (create_free_block (grow_heap s4 1).2 s.end_brk 0
      (s.end_brk + HEAP_GROWTH_INCREMENT * s.page_size)
      (HEAP_GROWTH_INCREMENT * s.page_size)) s.end_brk =
      ⟨HEAP_GROWTH_INCREMENT * s.page_size - HDR, 0,
        s.end_brk + HEAP_GROWTH_INCREMENT * s.page_size⟩ := by
    rw [getHdr_create_free_block_loc (grow_heap s4 1).2 s.end_brk 0
        (s.end_brk + HEAP_GROWTH_INCREMENT * s.page_size)
        (HEAP_GROWTH_INCREMENT * s.page_size) (by omega) (by omega),
      wsub_eq (HEAP_GROWTH_INCREMENT * s.page_size) HDR hQps1 hQpsW]
  have g6 : (create_free_block (grow_heap s4 1).2 s.end_brk 0
      (s.end_brk + HEAP_GROWTH_INCREMENT * s.page_size)
      (HEAP_GROWTH_INCREMENT * s.page_size)).end_brk =
      s.end_brk + HEAP_GROWTH_INCREMENT * s.page_size := by
    rw [create_free_block_end_brk]; exact g2
  have g7 : (create_free_block (grow_heap s4 1).2 s.end_brk 0
      (s.end_brk + HEAP_GROWTH_INCREMENT * s.page_size)
      (HEAP_GROWTH_INCREMENT * s.page_size)).last_free_block = s.end_brk := by
    rw [create_free_block_last_free, if_pos g2.symm]
  have hdrfin : getHdr (setPrev (create_free_block (grow_heap s4 1).2 s.end_brk 0
      (s.end_brk + HEAP_GROWTH_INCREMENT * s.page_size)
      (HEAP_GROWTH_INCREMENT * s.page_size)) s.end_brk 0) s.end_brk =
      ⟨HEAP_GROWTH_INCREMENT * s.page_size - HDR, 0,
        s.end_brk + HEAP_GROWTH_INCREMENT * s.page_size⟩ := by
    simp [g5]
  refine ⟨by simp [g2], by simp [g3, hNE], by simp [g7], hdrfin, ?_,
    by simp [g3, hNE]; omega, by simp [g3, g7, hNE], by simp [g7, g2]; omega⟩
  unfold chain
  simp only [setPrev_eq, setHdr_end_brk, setHdr_free_blocks,
    create_free_block_end_brk, create_free_block_free_blocks, g2, g3]
  rw [chainF_cons _ _ s.end_brk (by simp [g2]; omega)]
  rw [show getHdr (setHdr (create_free_block (grow_heap s4 1).2 s.end_brk 0
      (s.end_brk + HEAP_GROWTH_INCREMENT * s.page_size)
      (HEAP_GROWTH_INCREMENT * s.page_size)) s.end_brk
      { getHdr (create_free_block (grow_heap s4 1).2 s.end_brk 0
          (s.end_brk + HEAP_GROWTH_INCREMENT * s.page_size)
          (HEAP_GROWTH_INCREMENT * s.page_size)) s.end_brk with prev := 0 })
      s.end_brk =
      ⟨HEAP_GROWTH_INCREMENT * s.page_size - HDR, 0,
        s.end_brk + HEAP_GROWTH_INCREMENT * s.page_size⟩ by simp [g5]]
  rw [chainF_nil _ _ _ (by omega) (by simp [g2])]
  rfl

theorem C9_absorb_sole_grows_witness :
    chain (create_data_block s₀ 4096 4064 4064 0 8192).2 = some [s₀.end_brk] ∧
    (create_data_block s₀ 4096 4064 4064 0 8192).2.end_brk =
      s₀.end_brk + HEAP_GROWTH_INCREMENT * s₀.page_size :=
  ⟨(C9_absorb_sole_grows s₀ 4096 4064 4064 0 8192 (by decide) (by decide)
      (by decide) (by decide) (by decide) (by decide) (by decide) (by decide)
      (by decide) (by decide) (by decide) (by decide) (by decide)).2.2.2.2.1,
   (C9_absorb_sole_grows s₀ 4096 4064 4064 0 8192 (by decide) (by decide)
      (by decide) (by decide) (by decide) (by decide) (by decide) (by decide)
      (by decide) (by decide) (by decide) (by decide) (by decide)).1⟩

theorem links_of_chainF (s : AllocState) :
    ∀ (fuel : Nat) (a : Nat) (l : List Nat),
      chainF s fuel a = some l → Links s a l := by
  intro fuel
  induction fuel with
  | zero => intro a l h; simp [chainF] at h
  | succ f ih =>
    intro a l h
    by_cases ha : a = s.end_brk
    · simp [chainF, ha] at h
      subst h
      exact ha
    · simp [chainF, ha] at h
      obtain ⟨l', hl', rfl⟩ := h
      exact ⟨rfl, ha, ih _ _ hl'⟩

theorem chainF_of_links (s : AllocState) :
    ∀ (l : List Nat) (a fuel : Nat), Links s a l → l.length < fuel →
      chainF s fuel a = some l := by
  intro l
  induction l with
  | nil =>
    intro a fuel h hf
    exact chainF_nil s fuel a hf h
  | cons b l' ih =>
    intro a fuel h hf
    obtain ⟨rfl, hne, hl⟩ := h
    obtain ⟨f, rfl⟩ : ∃ f, fuel = f + 1 := ⟨fuel - 1, by omega⟩
    rw [chainF_cons s f a hne, ih _ _ hl (by simpa using hf)]
    rfl

theorem links_of_chain (s : AllocState) (l : List Nat)
    (h : chain s = some l) : Links s s.free_blocks l :=
  links_of_chainF s _ _ _ h

theorem sorted_len_le (n : Nat) :
    ∀ (l : List Nat), l.Pairwise (· < ·) → (∀ a ∈ l, a < n) → l.length ≤ n := by
  have key : ∀ (l : List Nat) (m : Nat), l.Pairwise (· < ·) →
      (∀ a ∈ l, m ≤ a ∧ a < n) → l.length ≤ n - m := by
    intro l
    induction l with
    | nil => intro m _ _; simp
    | cons a t ih =>
      intro m hp hb
      have hat := List.pairwise_cons.mp hp
      have h1 : t.length ≤ n - (a + 1) := by
        refine ih (a + 1) hat.2 (fun x hx => ⟨?_, (hb x (by simp [hx])).2⟩)
        have := hat.1 x hx
        omega
      have h2 := hb a (by simp)
      simp only [List.length_cons]
      omega
  intro l hp hb
  have := key l 0 hp (fun a ha => ⟨Nat.zero_le a, hb a ha⟩)
  simpa using this

theorem links_congr (s s' : AllocState) (hend : s'.end_brk = s.end_brk) :
    ∀ (l : List Nat) (a : Nat),
      (∀ b ∈ l, (getHdr s' b).next = (getHdr s b).next) →
      Links s a l → Links s' a l := by
  intro l
  induction l with
  | nil => intro a _ h; simp [Links, hend] at h ⊢; exact h
  | cons b l' ih =>
    intro a hh h
    obtain ⟨rfl, hne, hl⟩ := h
    refine ⟨rfl, by rw [hend]; exact hne, ?_⟩
    rw [hh a (by simp)]
    exact ih _ (fun c hc => hh c (by simp [hc])) hl

theorem chain_of_links (s : AllocState) (l : List Nat)
    (h : Links s s.free_blocks l) (hlen : l.length ≤ s.end_brk) :
    chain s = some l :=
  chainF_of_links s l _ _ h (by omega)

theorem getLastD_cons_eq (p b : Nat) (l : List Nat) :
    (b :: l).getLast?.getD p = l.getLast?.getD b := by
  cases h : l.getLast? with
  | none =>
    rw [List.getLast?_eq_none_iff] at h
    subst h
    simp
  | some x =>
    have hne : l ≠ [] := by
      intro hl
      subst hl
      simp at h
    rw [List.getLast?_cons, h]
    simp [Option.or]

theorem scanFwd_spec (s : AllocState) (block : Nat) (hb : block ≤ s.end_brk) :
    ∀ (l2 : List Nat) (p fuel : Nat),
      Links s (getHdr s p).next l2 → l2.length < fuel →
      scanFwd s block fuel p (getHdr s p).next =
        ((l2.takeWhile (fun a => decide (a < block))).getLastD p,
         (l2.dropWhile (fun a => decide (a < block))).headD s.end_brk) := by
  intro l2
  induction l2 with
  | nil =>
    intro p fuel h hf
    obtain ⟨f, rfl⟩ : ∃ f, fuel = f + 1 := ⟨fuel - 1, by omega⟩
    simp only [Links] at h
    rw [h]
    simp [scanFwd, show ¬(s.end_brk < block) by omega]
  | cons b l2' ih =>
    intro p fuel h hf
    obtain ⟨hpb, hbe, hl⟩ := h
    obtain ⟨f, rfl⟩ : ∃ f, fuel = f + 1 := ⟨fuel - 1, by omega⟩
    rw [hpb]
    by_cases hcond : b < block
    · simp only [scanFwd, if_pos hcond]
      rw [hpb, ih b f hl (by simpa using hf)]
      simp [List.takeWhile_cons, List.dropWhile_cons, hcond, getLastD_cons_eq]
    · simp only [scanFwd, if_neg hcond]
      simp [List.takeWhile_cons, List.dropWhile_cons, hcond]

theorem scanBwd_spec (s : AllocState) (block : Nat) :
    ∀ (r : List Nat) (n fuel : Nat),
      PrevLinksR s n r → r.length < fuel →
      scanBwd s block fuel (getHdr s n).prev n =
        ((r.dropWhile (fun a => decide (block < a))).headD 0,
         (r.takeWhile (fun a => decide (block < a))).getLastD n) := by
  intro r
  induction r with
  | nil =>
    intro n fuel h hf
    obtain ⟨f, rfl⟩ : ∃ f, fuel = f + 1 := ⟨fuel - 1, by omega⟩
    simp only [PrevLinksR] at h
    rw [h]
    simp [scanBwd]
  | cons a r' ih =>
    intro n fuel h hf
    obtain ⟨hna, hr⟩ := h
    obtain ⟨f, rfl⟩ : ∃ f, fuel = f + 1 := ⟨fuel - 1, by omega⟩
    rw [hna]
    by_cases hcond : block < a
    · simp only [scanBwd, if_pos hcond]
      rw [hna, ih a f hr (by simpa using hf)]
      simp [List.takeWhile_cons, List.dropWhile_cons, hcond, getLastD_cons_eq]
    · simp only [scanBwd, if_neg hcond]
      simp [List.takeWhile_cons, List.dropWhile_cons, hcond]

theorem links_eq_seg (s : AllocState) :
    ∀ (l : List Nat) (a : Nat), Links s a l ↔ LinksSeg s a l s.end_brk := by
  intro l
  induction l with
  | nil => intro a; simp [Links, LinksSeg]
  | cons b l' ih =>
    intro a
    simp only [Links, LinksSeg]
    rw [ih]

theorem seg_append (s : AllocState) :
    ∀ (l1 : List Nat) (a m : Nat) (l2 : List Nat) (c : Nat),
      LinksSeg s a l1 m → LinksSeg s m l2 c → LinksSeg s a (l1 ++ l2) c := by
  intro l1
  induction l1 with
  | nil =>
    intro a m l2 c h1 h2
    simp only [LinksSeg] at h1
    subst h1
    simpa using h2
  | cons b l1' ih =>
    intro a m l2 c h1 h2
    obtain ⟨rfl, hne, h1⟩ := h1
    exact ⟨rfl, hne, ih _ _ _ _ h1 h2⟩

theorem seg_split (s : AllocState) :
    ∀ (l1 l2 : List Nat) (a c : Nat),
      LinksSeg s a (l1 ++ l2) c → ∃ m, LinksSeg s a l1 m ∧ LinksSeg s m l2 c := by
  intro l1
  induction l1 with
  | nil =>
    intro l2 a c h
    exact ⟨a, rfl, by simpa using h⟩
  | cons b l1' ih =>
    intro l2 a c h
    obtain ⟨rfl, hne, h⟩ := h
    obtain ⟨m, hm1, hm2⟩ := ih _ _ _ h
    exact ⟨m, ⟨rfl, hne, hm1⟩, hm2⟩

theorem seg_congr (s s' : AllocState) (hend : s'.end_brk = s.end_brk) :
    ∀ (l : List Nat) (a c : Nat),
      (∀ b ∈ l, (getHdr s' b).next = (getHdr s b).next) →
      LinksSeg s a l c → LinksSeg s' a l c := by
  intro l
  induction l with
  | nil => intro a c _ h; exact h
  | cons b l' ih =>
    intro a c hh h
    obtain ⟨rfl, hne, h⟩ := h
    refine ⟨rfl, by rw [hend]; exact hne, ?_⟩
    rw [hh a (by simp)]
    exact ih _ _ (fun x hx => hh x (by simp [hx])) h

theorem seg_next_mem (s : AllocState) :
    ∀ (l : List Nat) (a c : Nat), LinksSeg s a l c →
      ∀ b ∈ l, (getHdr s b).next ∈ l ∨ (getHdr s b).next = c := by
  intro l
  induction l with
  | nil => intro a c _ b hb; simp at hb
  | cons x l' ih =>
    intro a c h b hb
    obtain ⟨rfl, hne, h⟩ := h
    rcases List.mem_cons.mp hb with rfl | hb'
    · cases l' with
      | nil =>
        simp only [LinksSeg] at h
        right
        exact h
      | cons y t =>
        obtain ⟨hy, _, _⟩ := h
        left
        simp [hy]
    · rcases ih _ _ h b hb' with hmem | hc
      · left; simp [hmem]
      · right; exact hc

theorem chain_next_ne_zero (s : AllocState) (l : List Nat)
    (hc : chain s = some l) (hOK : ∀ a ∈ l, blockOK s a)
    (hs : 0 < s.start_brk) :
    ∀ a ∈ l, (getHdr s a).next ≠ 0 := by
  intro a ha
  have hseg := (links_eq_seg s l s.free_blocks).mp (links_of_chain s l hc)
  rcases seg_next_mem s l _ _ hseg a ha with hmem | hend
  · have := (hOK _ hmem).1
    omega
  · rw [hend]
    have h1 := (hOK a ha).2.1
    unfold blockOK HDR at h1
    omega

theorem chain_head (s : AllocState) (l : List Nat) (b : Nat)
    (hc : chain s = some (b :: l)) : s.free_blocks = b :=
  (links_of_chain s _ hc).1

theorem pairOK_lt (s : AllocState) {a b : Nat} (h : pairOK s a b) : a < b := by
  have := h.1
  unfold HDR at this
  omega

theorem chain'_pairwise_lt (s : AllocState) (l : List Nat)
    (h : List.Chain' (pairOK s) l) : l.Pairwise (· < ·) :=
  List.chain'_iff_pairwise.mp
    (List.Chain'.imp (fun _ _ hab => pairOK_lt s hab) h)

theorem prevlinks_of_pairOK (s : AllocState) (l1 : List Nat) (n : Nat)
    (hch : List.Chain' (pairOK s) (l1 ++ [n]))
    (hh : ∀ h ∈ (l1 ++ [n]).head?, (getHdr s h).prev = 0) :
    PrevLinksR s n l1.reverse := by
  induction l1 using List.reverseRecOn generalizing n with
  | nil =>
    simp only [List.nil_append, List.head?_cons, Option.mem_def,
      Option.some.injEq, forall_eq] at hh
    simpa [PrevLinksR] using hh
  | append_singleton l1' m ih =>
    have h3 := List.chain'_append.mp hch
    have hmn : pairOK s m n :=
      h3.2.2 m (by rw [List.getLast?_concat]; rfl) n (by simp)
    simp only [List.reverse_append, List.reverse_singleton,
      List.singleton_append]
    refine ⟨hmn.2, ih m h3.1 ?_⟩
    intro h hh'
    apply hh
    cases l1' with
    | nil => simpa using hh'
    | cons x t => simpa using hh'

theorem head_dropWhile_not (p : Nat → Bool) :
    ∀ (l : List Nat) (x : Nat), (l.dropWhile p).head? = some x → p x = false := by
  intro l
  induction l with
  | nil => intro x h; simp [List.dropWhile] at h
  | cons a t ih =>
    intro x h
    rw [List.dropWhile_cons] at h
    by_cases ha : p a
    · rw [if_pos ha] at h
      exact ih x h
    · rw [if_neg ha] at h
      simp at h
      rcases h with ⟨rfl⟩
      simpa using ha

theorem pairOK_congr (s s' : AllocState) (a b : Nat)
    (hlen : (getHdr s' a).length = (getHdr s a).length)
    (hprev : (getHdr s' b).prev = (getHdr s b).prev)
    (h : pairOK s a b) : pairOK s' a b := by
  unfold pairOK at h ⊢
  rw [hlen, hprev]
  exact h

theorem chain'_pairOK_congr (s s' : AllocState) :
    ∀ (l : List Nat),
      (∀ a ∈ l, (getHdr s' a).length = (getHdr s a).length ∧
        (getHdr s' a).prev = (getHdr s a).prev) →
      List.Chain' (pairOK s) l → List.Chain' (pairOK s') l := by
  intro l
  induction l with
  | nil => intro _ _; exact List.chain'_nil
  | cons a t ih =>
    intro hh hch
    rw [List.chain'_cons'] at hch ⊢
    refine ⟨?_, ih (fun x hx => hh x (by simp [hx])) hch.2⟩
    intro y hy
    have hy' : y ∈ t := List.mem_of_mem_head? hy
    exact pairOK_congr s s' a y (hh a (by simp)).1 (hh y (by simp [hy'])).2
      (hch.1 y hy)

theorem blockOK_congr (s s' : AllocState) (a : Nat)
    (hlen : (getHdr s' a).length = (getHdr s a).length)
    (hsb : s'.start_brk = s.start_brk) (heb : s.end_brk ≤ s'.end_brk)
    (h : blockOK s a) : blockOK s' a := by
  unfold blockOK at h ⊢
  rw [hlen, hsb]
  omega

theorem chain_len_bound (s : AllocState) (l : List Nat)
    (hOK : ∀ a ∈ l, blockOK s a) (hch : List.Chain' (pairOK s) l) :
    l.length ≤ s.end_brk := by
  refine sorted_len_le s.end_brk l (chain'_pairwise_lt s l hch) ?_
  intro a ha
  have := (hOK a ha).2.1
  have h8 := (hOK a ha).2.2
  unfold HDR at this
  omega

theorem chain'_pairOK_last_len (s s' : AllocState) (l1 : List Nat) (L : Nat)
    (h1 : ∀ a ∈ l1, getHdr s' a = getHdr s a)
    (hLprev : (getHdr s' L).prev = (getHdr s L).prev)
    (hch : List.Chain' (pairOK s) (l1 ++ [L])) :
    List.Chain' (pairOK s') (l1 ++ [L]) := by
  rw [List.chain'_append] at hch ⊢
  refine ⟨chain'_pairOK_congr s s' l1
      (fun a ha => by rw [h1 a ha]; exact ⟨rfl, rfl⟩) hch.1,
    List.chain'_singleton L, ?_⟩
  intro x hx y hy
  have hxm : x ∈ l1 := by
    obtain ⟨hne', heq⟩ := List.mem_getLast?_eq_getLast hx
    rw [heq]
    exact List.getLast_mem hne'
  have hy' : L = y := by simpa using hy
  subst hy'
  exact pairOK_congr s s' x L (by rw [h1 x hxm]) hLprev (hch.2.2 x hx L (by simp))

theorem free_caseA_spec (s : AllocState) (b : Nat) (l : List Nat)
    (hc : chain s = some l) (hne : l ≠ [])
    (hOK : ∀ a ∈ l, blockOK s a) (hch : List.Chain' (pairOK s) l)
    (hhd : ∀ h ∈ l.head?, (getHdr s h).prev = 0)
    (hlast : l.getLast? = some s.last_free_block)
    (hbin : s.start_brk ≤ b) (hbend : b + HDR + (getHdr s b).length ≤ s.end_brk)
    (hb8 : 8 ≤ (getHdr s b).length)
    (hdisj : ∀ a ∈ l, a + HDR + (getHdr s a).length ≤ b ∨
      b + HDR + (getHdr s b).length ≤ a)
    (hA : s.last_free_block < b) :
    ∃ l', WeakInv (free_caseA s b) l' ∧ (l' = l ∨ l' = l ++ [b]) := by
  set L := s.last_free_block with hL
  obtain ⟨l1, rfl⟩ : ∃ l1, l = l1 ++ [L] :=
    ⟨l.dropLast, (List.dropLast_append_getLast? L hlast).symm⟩
  have hmem : ∀ a ∈ l1 ++ [L], a ≤ L := by
    have hpw := chain'_pairwise_lt s _ hch
    intro a ha
    rcases List.mem_append.mp ha with h | h
    · have := (List.pairwise_append.mp hpw).2.2 a h L (by simp)
      omega
    · simp at h; omega
  have hnotb : ∀ a ∈ l1 ++ [L], a ≠ b := fun a ha => by
    have := hmem a ha; omega
  have hneL : ∀ a ∈ l1, a ≠ L := by
    have hpw := chain'_pairwise_lt s _ hch
    intro a ha
    have := (List.pairwise_append.mp hpw).2.2 a ha L (by simp)
    omega
  have hLOK : blockOK s L := hOK L (by simp)
  have hLend : L + HDR + (getHdr s L).length ≤ b := by
    rcases hdisj L (by simp) with h | h
    · exact h
    · exfalso; unfold HDR at h; omega
  have hlenb := chain_len_bound s _ hOK hch
  by_cases hadj : L + HDR + (getHdr s L).length = b
  · -- merge: extend the last block in place
    have hstep : free_caseA s b =
        setLength s L ((getHdr s L).length + (getHdr s b).length + HDR) := by
      unfold free_caseA
      rw [← hL, if_pos hadj]
    have hgL : getHdr (free_caseA s b) L = { getHdr s L with
        length := (getHdr s L).length + (getHdr s b).length + HDR } := by
      rw [hstep]; simp
    have hgne : ∀ x, x ≠ L → getHdr (free_caseA s b) x = getHdr s x := by
      intro x hx
      rw [hstep]
      simp only [setLength_eq]
      exact getHdr_setHdr_ne _ _ _ _ hx
    have hgLlen : (getHdr (free_caseA s b) L).length =
        (getHdr s L).length + (getHdr s b).length + HDR := by rw [hgL]
    have hgLprev : (getHdr (free_caseA s b) L).prev = (getHdr s L).prev := by
      rw [hgL]
    have hgLnext : (getHdr (free_caseA s b) L).next = (getHdr s L).next := by
      rw [hgL]
    have hend' : (free_caseA s b).end_brk = s.end_brk := by rw [hstep]; rfl
    have hsb' : (free_caseA s b).start_brk = s.start_brk := by rw [hstep]; rfl
    have hfb' : (free_caseA s b).free_blocks = s.free_blocks := by
      rw [hstep]; rfl
    refine ⟨l1 ++ [L], ⟨?_, hne, ?_, ?_, ?_⟩, Or.inl rfl⟩
    · refine chain_of_links _ _ ?_ (by rw [hend']; exact hlenb)
      rw [hfb']
      refine links_congr s _ hend' _ _ ?_ (links_of_chain s _ hc)
      intro x hx
      by_cases hxL : x = L
      · subst hxL; exact hgLnext
      · rw [hgne x hxL]
    · intro a ha
      by_cases haL : a = L
      · subst haL
        refine ⟨by rw [hsb']; exact hLOK.1, ?_, ?_⟩
        · rw [hgLlen, hend']
          omega
        · rw [hgLlen]
          omega
      · exact blockOK_congr s _ a (by rw [hgne a haL]) hsb'
          (by rw [hend']) (hOK a ha)
    · exact chain'_pairOK_last_len s _ l1 L
        (fun a ha => hgne a (hneL a ha)) hgLprev hch
    · intro h hh
      by_cases hhL : h = L
      · subst hhL; rw [hgLprev]; exact hhd L hh
      · rw [hgne h hhL]; exact hhd h hh
  · -- append: b becomes the new last free block
    have hbL : b ≠ L := by omega
    have hstep : free_caseA s b =
        { setNext (setPrev (setNext s L b) b L) b s.end_brk with
          last_free_block := b } := by
      unfold free_caseA
      rw [← hL, if_neg hadj]
      simp only [setNext_eq, setPrev_eq, setHdr_last_free_block,
        setHdr_end_brk, ← hL]
    have hgb : getHdr (free_caseA s b) b =
        ⟨(getHdr s b).length, L, s.end_brk⟩ := by
      rw [hstep]
      show getHdr (setNext (setPrev (setNext s L b) b L) b s.end_brk) b = _
      simp [getHdr_eq, lookupHdr_cons_ne _ _ _ _ hbL]
    have hgL : getHdr (free_caseA s b) L = { getHdr s L with next := b } := by
      rw [hstep]
      show getHdr (setNext (setPrev (setNext s L b) b L) b s.end_brk) L = _
      simp [getHdr_eq, lookupHdr_cons_ne _ _ _ _ (Ne.symm hbL)]
    have hg3 : ∀ x, x ≠ L → x ≠ b → getHdr (free_caseA s b) x = getHdr s x := by
      intro x hxL hxb
      rw [hstep]
      show getHdr (setNext (setPrev (setNext s L b) b L) b s.end_brk) x = _
      simp [getHdr_eq, lookupHdr_cons_ne _ _ _ _ hxb,
        lookupHdr_cons_ne _ _ _ _ hxL]
    have hgbprev : (getHdr (free_caseA s b) b).prev = L := by rw [hgb]
    have hgbnext : (getHdr (free_caseA s b) b).next = s.end_brk := by rw [hgb]
    have hgblen : (getHdr (free_caseA s b) b).length = (getHdr s b).length := by
      rw [hgb]
    have hgLlen : (getHdr (free_caseA s b) L).length =
        (getHdr s L).length := by rw [hgL]
    have hgLprev : (getHdr (free_caseA s b) L).prev = (getHdr s L).prev := by
      rw [hgL]
    have hgLnext : (getHdr (free_caseA s b) L).next = b := by rw [hgL]
    have hend' : (free_caseA s b).end_brk = s.end_brk := by rw [hstep]; rfl
    have hsb' : (free_caseA s b).start_brk = s.start_brk := by rw [hstep]; rfl
    have hfb' : (free_caseA s b).free_blocks = s.free_blocks := by
      rw [hstep]; rfl
    have hblt : b < s.end_brk := by unfold HDR at hbend; omega
    refine ⟨(l1 ++ [L]) ++ [b], ⟨?_, by simp, ?_, ?_, ?_⟩, Or.inr rfl⟩
    · -- chain gains b at the end
      refine chain_of_links _ _ ?_ ?_
      · rw [hfb', links_eq_seg]
        have hseg : LinksSeg s s.free_blocks (l1 ++ [L]) s.end_brk :=
          (links_eq_seg s _ _).mp (links_of_chain s _ hc)
        obtain ⟨m, hm1, hm2⟩ := seg_split s l1 [L] _ _ hseg
        obtain ⟨rfl, hLne, -⟩ := hm2
        have hseg1 : LinksSeg (free_caseA s b) s.free_blocks l1 L := by
          refine seg_congr s _ hend' l1 _ _ ?_ hm1
          intro x hx
          rw [hg3 x (hneL x hx) (hnotb x (by simp [hx]))]
        have hseg2 : LinksSeg (free_caseA s b) L [L, b]
            (free_caseA s b).end_brk := by
          refine ⟨rfl, by rw [hend']; exact hLne, ?_⟩
          rw [hgLnext]
          refine ⟨rfl, by rw [hend']; omega, ?_⟩
          rw [hgbnext, hend']
          rfl
        have hall := seg_append (free_caseA s b) l1 _ _ [L, b] _ hseg1 hseg2
        have heq : l1 ++ [L, b] = (l1 ++ [L]) ++ [b] := by simp
        rw [← heq]
        exact hall
      · rw [hend']
        refine sorted_len_le s.end_brk _ ?_ ?_
        · rw [List.pairwise_append]
          refine ⟨chain'_pairwise_lt s _ hch, by simp, ?_⟩
          intro x hx y hy
          simp at hy
          subst hy
          have := hmem x hx
          omega
        · intro a ha
          rcases List.mem_append.mp ha with h | h
          · have := (hOK a h).2.1
            unfold HDR at this
            omega
          · simp at h; omega
    · intro a ha
      rcases List.mem_append.mp ha with h | h
      · by_cases haL : a = L
        · subst haL
          exact blockOK_congr s _ L hgLlen hsb' (by rw [hend']) hLOK
        · exact blockOK_congr s _ a
            (by rw [hg3 a haL (hnotb a h)]) hsb' (by rw [hend']) (hOK a h)
      · simp at h
        subst h
        exact ⟨by rw [hsb']; exact hbin,
          by rw [hgblen, hend']; exact hbend, by rw [hgblen]; exact hb8⟩
    · rw [List.chain'_append]
      refine ⟨?_, List.chain'_singleton b, ?_⟩
      · refine chain'_pairOK_congr s _ _ ?_ hch
        intro a ha
        by_cases haL : a = L
        · subst haL; exact ⟨hgLlen, hgLprev⟩
        · rw [hg3 a haL (hnotb a ha)]; exact ⟨rfl, rfl⟩
      · intro x hx y hy
        have hy' : b = y := by simpa using hy
        subst hy'
        obtain rfl : x = L := by
          rw [List.getLast?_concat] at hx
          exact (by simpa using hx : L = x).symm
        exact ⟨by rw [hgLlen]; omega, hgbprev⟩
    · intro h hh
      have hhm : h ∈ l1 ++ [L] := by
        rcases l1 with - | ⟨x, t⟩
        · have : L = h := by simpa using hh
          simp [← this]
        · have : x = h := by simpa using hh
          simp [← this]
      have hhh : h ∈ (l1 ++ [L]).head? := by
        rcases l1 with - | ⟨x, t⟩
        · simpa using hh
        · simpa using hh
      by_cases hhL : h = L
      · subst hhL
        rw [hgLprev]
        exact hhd L hhh
      · rw [hg3 h hhL (hnotb h hhm)]
        exact hhd h hhh

theorem chain'_pairOK_head (s s' : AllocState) (N : Nat) (t2 : List Nat)
    (h1 : ∀ a ∈ t2, getHdr s' a = getHdr s a)
    (hNlen : (getHdr s' N).length = (getHdr s N).length)
    (hch : List.Chain' (pairOK s) (N :: t2)) :
    List.Chain' (pairOK s') (N :: t2) := by
  rw [List.chain'_cons'] at hch ⊢
  refine ⟨?_, chain'_pairOK_congr s s' t2
    (fun a ha => by rw [h1 a ha]; exact ⟨rfl, rfl⟩) hch.2⟩
  intro y hy
  have hy' : y ∈ t2 := List.mem_of_mem_head? hy
  exact pairOK_congr s s' N y hNlen (by rw [h1 y hy']) (hch.1 y hy)

theorem free_caseB_spec (s : AllocState) (b : Nat) (l : List Nat)
    (hc : chain s = some l) (hne : l ≠ [])
    (hOK : ∀ a ∈ l, blockOK s a) (hch : List.Chain' (pairOK s) l)
    (hbin : s.start_brk ≤ b) (hbend : b + HDR + (getHdr s b).length ≤ s.end_brk)
    (hb8 : 8 ≤ (getHdr s b).length)
    (hdisj : ∀ a ∈ l, a + HDR + (getHdr s a).length ≤ b ∨
      b + HDR + (getHdr s b).length ≤ a)
    (hB : b < s.free_blocks) :
    ∃ l', WeakInv (free_caseB s b) l' ∧ (l' = b :: l.tail ∨ l' = b :: l) := by
  obtain ⟨t, rfl⟩ : ∃ t, l = s.free_blocks :: t := by
    cases l with
    | nil => exact absurd rfl hne
    | cons x t =>
      have hx := chain_head s t x hc
      exact ⟨t, by rw [hx]⟩
  have hlk := links_of_chain s _ hc
  obtain ⟨-, hFne, hlt⟩ := hlk
  have hFOK : blockOK s s.free_blocks := hOK _ (by simp)
  have hFb : s.free_blocks ≠ b := by omega
  have htgt : ∀ x ∈ t, s.free_blocks < x :=
    (List.pairwise_cons.mp (chain'_pairwise_lt s _ hch)).1
  have hbendlt : b < s.end_brk := by unfold HDR at hbend; omega
  have hbendF : b + HDR + (getHdr s b).length ≤ s.free_blocks := by
    rcases hdisj s.free_blocks (by simp) with h | h
    · exfalso
      have := hFOK.2.2
      unfold HDR at h
      omega
    · exact h
  by_cases hadj : b + HDR + (getHdr s b).length = s.free_blocks
  · -- absorb the old first free block into b
    by_cases hNe : (getHdr s s.free_blocks).next = s.end_brk
    · -- the old head was the sole free block
      have ht0 : t = [] := by
        cases t with
        | nil => rfl
        | cons x t2 =>
          obtain ⟨rfl, hxe, -⟩ := hlt
          exact absurd hNe hxe
      subst ht0
      have hstep : free_caseB s b =
          { setPrev (setNext (setLength s b ((getHdr s b).length +
              (getHdr s s.free_blocks).length + HDR)) b
              (getHdr s s.free_blocks).next) b 0 with
            free_blocks := b } := by
        unfold free_caseB
        rw [if_pos hadj]
        simp only [setLength_eq, setNext_eq, setPrev_eq, setHdr_end_brk,
          setHdr_free_blocks, getHdr_setHdr_same, getHdr_setHdr_ne _ _ _ _ hFb]
        rw [if_neg (not_not_intro hNe)]
        simp only [getHdr_setHdr_same, getHdr_setHdr_ne _ _ _ _ hFb,
          setHdr_end_brk, setHdr_free_blocks]
      have hgb : getHdr (free_caseB s b) b =
          ⟨(getHdr s b).length + (getHdr s s.free_blocks).length + HDR, 0,
            (getHdr s s.free_blocks).next⟩ := by
        rw [hstep]
        show getHdr (setPrev (setNext (setLength s b _) b _) b 0) b = _
        simp [getHdr_eq]
      have hend' : (free_caseB s b).end_brk = s.end_brk := by rw [hstep]; rfl
      have hsb' : (free_caseB s b).start_brk = s.start_brk := by
        rw [hstep]; rfl
      have hfb' : (free_caseB s b).free_blocks = b := by rw [hstep]
      refine ⟨[b], ⟨?_, by simp, ?_, ?_, ?_⟩, Or.inl rfl⟩
      · refine chain_of_links _ _ ?_
          (by simp only [List.length_cons, List.length_nil, hend']; omega)
        rw [hfb']
        refine ⟨rfl, by rw [hend']; omega, ?_⟩
        show Links (free_caseB s b) (getHdr (free_caseB s b) b).next []
        show (getHdr (free_caseB s b) b).next = (free_caseB s b).end_brk
        rw [hgb, hend']
        exact hNe
      · intro a ha
        obtain rfl : b = a := by
          have h0 : a = b := by simpa using ha
          exact h0.symm
        refine ⟨by rw [hsb']; exact hbin, ?_, ?_⟩
        · rw [hend']
          have h1 : (getHdr (free_caseB s b) b).length =
              (getHdr s b).length + (getHdr s s.free_blocks).length + HDR := by
            rw [hgb]
          rw [h1]
          have := hFOK.2.1
          omega
        · have h1 : (getHdr (free_caseB s b) b).length =
              (getHdr s b).length + (getHdr s s.free_blocks).length + HDR := by
            rw [hgb]
          rw [h1]
          omega
      · exact List.chain'_singleton b
      · intro h hh
        obtain rfl : b = h := by simpa using hh
        rw [hgb]
    · -- the old head had a successor: repoint its back link
      obtain ⟨t2, rfl⟩ : ∃ t2, t = (getHdr s s.free_blocks).next :: t2 := by
        cases t with
        | nil =>
          simp only [Links] at hlt
          exact absurd hlt hNe
        | cons x t2 =>
          obtain ⟨hx, -, -⟩ := hlt
          exact ⟨t2, by rw [hx]⟩
      obtain ⟨-, hNend, hlt2⟩ := hlt
      have hNgt : s.free_blocks < (getHdr s s.free_blocks).next :=
        htgt _ (by simp)
      have hbN : b ≠ (getHdr s s.free_blocks).next := by omega
      have hbN' : b ≠ (lookupHdr s.hdrs s.free_blocks).next := hbN
      have ht2gt : ∀ x ∈ t2, (getHdr s s.free_blocks).next < x :=
        (List.pairwise_cons.mp
          (List.pairwise_cons.mp (chain'_pairwise_lt s _ hch)).2).1
      have hstep : free_caseB s b =
          { setPrev (setPrev (setNext (setLength s b ((getHdr s b).length +
              (getHdr s s.free_blocks).length + HDR)) b
              (getHdr s s.free_blocks).next)
              ((getHdr s s.free_blocks).next) b) b 0 with
            free_blocks := b } := by
        unfold free_caseB
        rw [if_pos hadj]
        simp only [setLength_eq, setNext_eq, setPrev_eq, setHdr_end_brk,
          setHdr_free_blocks, getHdr_setHdr_same, getHdr_setHdr_ne _ _ _ _ hFb]
        rw [if_pos hNe]
        simp only [getHdr_setHdr_same, getHdr_setHdr_ne _ _ _ _ hFb,
          setHdr_end_brk, setHdr_free_blocks]
      have hgb : getHdr (free_caseB s b) b =
          ⟨(getHdr s b).length + (getHdr s s.free_blocks).length + HDR, 0,
            (getHdr s s.free_blocks).next⟩ := by
        rw [hstep]
        show getHdr (setPrev (setPrev (setNext (setLength s b _) b _) _ b) b 0)
          b = _
        simp [getHdr_eq, lookupHdr_cons_ne _ _ _ _ hbN']
      have hgN : getHdr (free_caseB s b) (getHdr s s.free_blocks).next =
          { getHdr s (getHdr s s.free_blocks).next with prev := b } := by
        rw [hstep]
        show getHdr (setPrev (setPrev (setNext (setLength s b _) b _) _ b) b 0)
          (getHdr s s.free_blocks).next = _
        simp [getHdr_eq, lookupHdr_cons_ne _ _ _ _ (Ne.symm hbN')]
      have hg3 : ∀ x, x ≠ b → x ≠ (getHdr s s.free_blocks).next →
          getHdr (free_caseB s b) x = getHdr s x := by
        intro x hxb hxN
        have hxN' : x ≠ (lookupHdr s.hdrs s.free_blocks).next := hxN
        rw [hstep]
        show getHdr (setPrev (setPrev (setNext (setLength s b _) b _) _ b) b 0)
          x = _
        simp [getHdr_eq, lookupHdr_cons_ne _ _ _ _ hxb,
          lookupHdr_cons_ne _ _ _ _ hxN']
      have hend' : (free_caseB s b).end_brk = s.end_brk := by rw [hstep]; rfl
      have hsb' : (free_caseB s b).start_brk = s.start_brk := by
        rw [hstep]; rfl
      have hfb' : (free_caseB s b).free_blocks = b := by rw [hstep]
      have hgblen : (getHdr (free_caseB s b) b).length =
          (getHdr s b).length + (getHdr s s.free_blocks).length + HDR := by
        rw [hgb]
      have hgbnext : (getHdr (free_caseB s b) b).next =
          (getHdr s s.free_blocks).next := by rw [hgb]
      have hgbprev : (getHdr (free_caseB s b) b).prev = 0 := by rw [hgb]
      have hgNlen :
          (getHdr (free_caseB s b) (getHdr s s.free_blocks).next).length =
          (getHdr s (getHdr s s.free_blocks).next).length := by rw [hgN]
      have hgNprev :
          (getHdr (free_caseB s b) (getHdr s s.free_blocks).next).prev = b := by
        rw [hgN]
      have hgNnext :
          (getHdr (free_caseB s b) (getHdr s s.free_blocks).next).next =
          (getHdr s (getHdr s s.free_blocks).next).next := by rw [hgN]
      have hpairFN : pairOK s s.free_blocks (getHdr s s.free_blocks).next :=
        (List.chain'_cons'.mp hch).1 _ (by simp)
      have hchtail : List.Chain' (pairOK s)
          ((getHdr s s.free_blocks).next :: t2) := (List.chain'_cons'.mp hch).2
      refine ⟨b :: (getHdr s s.free_blocks).next :: t2,
        ⟨?_, by simp, ?_, ?_, ?_⟩, Or.inl rfl⟩
      · refine chain_of_links _ _ ?_ ?_
        · rw [hfb']
          refine ⟨rfl, by rw [hend']; omega, ?_⟩
          rw [hgbnext]
          refine ⟨rfl, by rw [hend']; exact hNend, ?_⟩
          rw [hgNnext]
          refine links_congr s _ hend' _ _ ?_ hlt2
          intro x hx
          have hx1 : x ≠ b := by have := ht2gt x hx; omega
          have hx2 : x ≠ (getHdr s s.free_blocks).next := by
            have := ht2gt x hx; omega
          rw [hg3 x hx1 hx2]
        · rw [hend']
          refine sorted_len_le s.end_brk _ ?_ ?_
          · refine List.pairwise_cons.mpr ⟨?_,
              (List.pairwise_cons.mp (chain'_pairwise_lt s _ hch)).2⟩
            intro x hx
            have := htgt x hx
            omega
          · intro a ha
            rcases List.mem_cons.mp ha with rfl | ha'
            · omega
            · have := (hOK a (by simp [ha'])).2.1
              unfold HDR at this
              omega
      · intro a ha
        rcases List.mem_cons.mp ha with rfl | ha'
        · refine ⟨by rw [hsb']; exact hbin, ?_, ?_⟩
          · rw [hend', hgblen]
            have := hFOK.2.1
            omega
          · rw [hgblen]
            omega
        · rcases List.mem_cons.mp ha' with rfl | ha''
          · exact blockOK_congr s _ _ hgNlen hsb' (by rw [hend'])
              (hOK _ (by simp))
          · have hx1 : a ≠ b := by have := ht2gt a ha''; omega
            have hx2 : a ≠ (getHdr s s.free_blocks).next := by
              have := ht2gt a ha''; omega
            exact blockOK_congr s _ _ (by rw [hg3 a hx1 hx2]) hsb'
              (by rw [hend']) (hOK a (by simp [ha'']))
      · rw [List.chain'_cons']
        refine ⟨?_, ?_⟩
        · intro y hy
          obtain rfl : (getHdr s s.free_blocks).next = y := by simpa using hy
          refine ⟨?_, hgNprev⟩
          rw [hgblen]
          have := hpairFN.1
          omega
        · refine chain'_pairOK_head s _ _ t2 ?_ hgNlen hchtail
          intro x hx
          have hx1 : x ≠ b := by have := ht2gt x hx; omega
          have hx2 : x ≠ (getHdr s s.free_blocks).next := by
            have := ht2gt x hx; omega
          rw [hg3 x hx1 hx2]
      · intro h hh
        obtain rfl : b = h := by simpa using hh
        exact hgbprev
  · -- not adjacent: b is prepended as the new first free block
    have hstep : free_caseB s b =
        { setPrev (setPrev (setNext s b s.free_blocks) s.free_blocks b) b 0 with
          free_blocks := b } := by
      unfold free_caseB
      rw [if_neg hadj]
      simp only [setNext_eq, setPrev_eq, setHdr_free_blocks]
    have hgb : getHdr (free_caseB s b) b = ⟨(getHdr s b).length, 0,
        s.free_blocks⟩ := by
      rw [hstep]
      show getHdr (setPrev (setPrev (setNext s b _) _ b) b 0) b = _
      simp [getHdr_eq, lookupHdr_cons_ne _ _ _ _ (Ne.symm hFb)]
    have hgF : getHdr (free_caseB s b) s.free_blocks =
        { getHdr s s.free_blocks with prev := b } := by
      rw [hstep]
      show getHdr (setPrev (setPrev (setNext s b _) _ b) b 0) s.free_blocks = _
      simp [getHdr_eq, lookupHdr_cons_ne _ _ _ _ hFb]
    have hg3 : ∀ x, x ≠ b → x ≠ s.free_blocks →
        getHdr (free_caseB s b) x = getHdr s x := by
      intro x hxb hxF
      rw [hstep]
      show getHdr (setPrev (setPrev (setNext s b _) _ b) b 0) x = _
      simp [getHdr_eq, lookupHdr_cons_ne _ _ _ _ hxb,
        lookupHdr_cons_ne _ _ _ _ hxF]
    have hend' : (free_caseB s b).end_brk = s.end_brk := by rw [hstep]; rfl
    have hsb' : (free_caseB s b).start_brk = s.start_brk := by rw [hstep]; rfl
    have hfb' : (free_caseB s b).free_blocks = b := by rw [hstep]
    have hgblen : (getHdr (free_caseB s b) b).length = (getHdr s b).length := by
      rw [hgb]
    have hgbnext : (getHdr (free_caseB s b) b).next = s.free_blocks := by
      rw [hgb]
    have hgbprev : (getHdr (free_caseB s b) b).prev = 0 := by rw [hgb]
    have hgFlen : (getHdr (free_caseB s b) s.free_blocks).length =
        (getHdr s s.free_blocks).length := by rw [hgF]
    have hgFprev : (getHdr (free_caseB s b) s.free_blocks).prev = b := by
      rw [hgF]
    have hgFnext : (getHdr (free_caseB s b) s.free_blocks).next =
        (getHdr s s.free_blocks).next := by rw [hgF]
    refine ⟨b :: s.free_blocks :: t, ⟨?_, by simp, ?_, ?_, ?_⟩, Or.inr rfl⟩
    · refine chain_of_links _ _ ?_ ?_
      · rw [hfb']
        refine ⟨rfl, by rw [hend']; omega, ?_⟩
        rw [hgbnext]
        refine ⟨rfl, by rw [hend']; exact hFne, ?_⟩
        rw [hgFnext]
        refine links_congr s _ hend' _ _ ?_ hlt
        intro x hx
        have hx1 : x ≠ b := by have := htgt x hx; omega
        have hx2 : x ≠ s.free_blocks := by have := htgt x hx; omega
        rw [hg3 x hx1 hx2]
      · rw [hend']
        refine sorted_len_le s.end_brk _ ?_ ?_
        · refine List.pairwise_cons.mpr ⟨?_, chain'_pairwise_lt s _ hch⟩
          intro x hx
          rcases List.mem_cons.mp hx with rfl | hx'
          · omega
          · have := htgt x hx'
            omega
        · intro a ha
          rcases List.mem_cons.mp ha with rfl | ha'
          · omega
          · have := (hOK a ha').2.1
            unfold HDR at this
            omega
    · intro a ha
      rcases List.mem_cons.mp ha with rfl | ha'
      · exact ⟨by rw [hsb']; exact hbin,
          by rw [hend', hgblen]; exact hbend, by rw [hgblen]; exact hb8⟩
      · rcases List.mem_cons.mp ha' with rfl | ha''
        · exact blockOK_congr s _ _ hgFlen hsb' (by rw [hend'])
            (hOK _ (by simp))
        · have hx1 : a ≠ b := by have := htgt a ha''; omega
          have hx2 : a ≠ s.free_blocks := by have := htgt a ha''; omega
          exact blockOK_congr s _ _ (by rw [hg3 a hx1 hx2]) hsb'
            (by rw [hend']) (hOK a (by simp [ha'']))
    · rw [List.chain'_cons']
      refine ⟨?_, ?_⟩
      · intro y hy
        obtain rfl : s.free_blocks = y := by simpa using hy
        refine ⟨?_, hgFprev⟩
        rw [hgblen]
        omega
      · refine chain'_pairOK_head s _ _ t ?_ hgFlen hch
        intro x hx
        have hx1 : x ≠ b := by have := htgt x hx; omega
        have hx2 : x ≠ s.free_blocks := by have := htgt x hx; omega
        rw [hg3 x hx1 hx2]
    · intro h hh
      obtain rfl : b = h := by simpa using hh
      exact hgbprev

theorem takeWhile_append_of (p : Nat → Bool) :
    ∀ (xs ys : List Nat), (∀ x ∈ xs, p x = true) →
      (∀ y ∈ ys.head?, p y = false) →
      (xs ++ ys).takeWhile p = xs ∧ (xs ++ ys).dropWhile p = ys := by
  intro xs
  induction xs with
  | nil =>
    intro ys _ hy
    cases ys with
    | nil => simp
    | cons y t =>
      have := hy y (by simp)
      simp [List.takeWhile_cons, List.dropWhile_cons, this]
  | cons x xs ih =>
    intro ys hx hy
    have hpx := hx x (by simp)
    have := ih ys (fun z hz => hx z (by simp [hz])) hy
    simp [List.takeWhile_cons, List.dropWhile_cons, hpx, this.1, this.2]

theorem mem_takeWhile_lt (b : Nat) : ∀ (l : List Nat) (x : Nat),
    x ∈ l.takeWhile (fun a => decide (a < b)) → x < b := by
  intro l
  induction l with
  | nil => intro x hx; simp at hx
  | cons a t ih =>
    intro x hx
    rw [List.takeWhile_cons] at hx
    by_cases ha : (a < b)
    · rw [if_pos (by simpa using ha)] at hx
      rcases List.mem_cons.mp hx with rfl | hx'
      · exact ha
      · exact ih x hx'
    · rw [if_neg (by simpa using ha)] at hx
      simp at hx

theorem free_caseC_spec (s : AllocState) (b : Nat) (l : List Nat)
    (hc : chain s = some l) (hne : l ≠ [])
    (hOK : ∀ a ∈ l, blockOK s a) (hch : List.Chain' (pairOK s) l)
    (hhd : ∀ h ∈ l.head?, (getHdr s h).prev = 0)
    (hlast : l.getLast? = some s.last_free_block)
    (hstart : 0 < s.start_brk)
    (hbin : s.start_brk ≤ b) (hbend : b + HDR + (getHdr s b).length ≤ s.end_brk)
    (hb8 : 8 ≤ (getHdr s b).length)
    (hdisj : ∀ a ∈ l, a + HDR + (getHdr s a).length ≤ b ∨
      b + HDR + (getHdr s b).length ≤ a)
    (hsucc : b + HDR + (getHdr s b).length ∈ l ∨
      (getHdr s (b + HDR + (getHdr s b).length)).next = 0)
    (hCl : s.free_blocks ≤ b) (hCr : b ≤ s.last_free_block) :
    ∃ l', WeakInv (free_caseC s b) l' := by
  have hpw := chain'_pairwise_lt s l hch
  have hbnotin : b ∉ l := by
    intro hmem
    rcases hdisj b hmem with h | h <;> (unfold HDR at h; omega)
  obtain ⟨t0, hlF⟩ : ∃ t0, l = s.free_blocks :: t0 := by
    cases l with
    | nil => exact absurd rfl hne
    | cons x t =>
      have hx := chain_head s t x hc
      exact ⟨t, by rw [hx]⟩
  have hFmem : s.free_blocks ∈ l := by rw [hlF]; simp
  have hFlt : s.free_blocks < b := by
    have : s.free_blocks ≠ b := fun h => hbnotin (h ▸ hFmem)
    omega
  have hLmem : s.last_free_block ∈ l := by
    obtain ⟨hne', heq⟩ := List.mem_getLast?_eq_getLast (by
      rw [hlast]; rfl : s.last_free_block ∈ l.getLast?)
    rw [heq]
    exact List.getLast_mem hne'
  have hbltL : b < s.last_free_block := by
    have : s.last_free_block ≠ b := fun h => hbnotin (h ▸ hLmem)
    omega
  have hSgtb : b < b + HDR + (getHdr s b).length := by unfold HDR; omega
  -- split the free list at b
  have hsplit : l.takeWhile (fun a => decide (a < b)) ++
      l.dropWhile (fun a => decide (a < b)) = l :=
    List.takeWhile_append_dropWhile (fun a => decide (a < b)) l
  have hl1mem : ∀ x ∈ l.takeWhile (fun a => decide (a < b)), x < b :=
    fun x hx => mem_takeWhile_lt b l x hx
  have hl2sub : (l.dropWhile (fun a => decide (a < b))).Sublist l :=
    List.dropWhile_sublist _
  have hl2ne : l.dropWhile (fun a => decide (a < b)) ≠ [] := by
    intro h0
    have h1 : l.takeWhile (fun a => decide (a < b)) = l := by
      conv_rhs => rw [← hsplit, h0]
      simp
    have := hl1mem s.last_free_block (by rw [h1]; exact hLmem)
    omega
  obtain ⟨N, t2, hl2⟩ : ∃ N t2,
      l.dropWhile (fun a => decide (a < b)) = N :: t2 := by
    cases h0 : l.dropWhile (fun a => decide (a < b)) with
    | nil => exact absurd h0 hl2ne
    | cons x t => exact ⟨x, t, rfl⟩
  have hNb : ¬ N < b := by
    have := head_dropWhile_not (fun a => decide (a < b)) l N
      (by rw [hl2]; rfl)
    simpa using this
  have hNmem : N ∈ l := hl2sub.subset (by rw [hl2]; simp)
  have hNOK : blockOK s N := hOK N hNmem
  have hNS : b + HDR + (getHdr s b).length ≤ N := by
    rcases hdisj N hNmem with h | h
    · exfalso; unfold HDR at h; omega
    · exact h
  have ht2gtN : ∀ x ∈ t2, N < x := by
    have hpw2 := hpw.sublist hl2sub
    rw [hl2] at hpw2
    exact (List.pairwise_cons.mp hpw2).1
  have hl1ne : l.takeWhile (fun a => decide (a < b)) ≠ [] := by
    intro h0
    have h1 : l.dropWhile (fun a => decide (a < b)) = l := by
      conv_rhs => rw [← hsplit, h0]
      simp
    have h2 : N :: t2 = s.free_blocks :: t0 := by rw [← hl2, h1, hlF]
    have hFN : N = s.free_blocks := by
      have h3 := congrArg List.head? h2
      simpa using h3
    omega
  obtain ⟨l1h, P, hl1P⟩ : ∃ l1h P,
      l.takeWhile (fun a => decide (a < b)) = l1h ++ [P] :=
    ⟨_, _, (List.dropLast_append_getLast hl1ne).symm⟩
  have hPmem1 : P ∈ l.takeWhile (fun a => decide (a < b)) := by
    rw [hl1P]; simp
  have hPmem : P ∈ l := (List.takeWhile_sublist _).subset hPmem1
  have hPb : P < b := hl1mem P hPmem1
  have hPlast : (l.takeWhile (fun a => decide (a < b))).getLast? = some P := by
    rw [hl1P, List.getLast?_concat]
  have hPOK : blockOK s P := hOK P hPmem
  have hPend : P + HDR + (getHdr s P).length ≤ b := by
    rcases hdisj P hPmem with h | h
    · exact h
    · exfalso; unfold HDR at h; omega
  -- links decomposition at the split
  have hsegl : LinksSeg s s.free_blocks
      (l.takeWhile (fun a => decide (a < b)) ++
        l.dropWhile (fun a => decide (a < b))) s.end_brk := by
    rw [hsplit]
    exact (links_eq_seg s l _).mp (links_of_chain s l hc)
  obtain ⟨m, hseg1, hseg2⟩ := seg_split s _ _ _ _ hsegl
  rw [hl2] at hseg2
  obtain ⟨hmN, hNe, hseg3⟩ := hseg2
  rw [hmN] at hseg1
  -- the crossing pair (P, N)
  have hchsplit := List.chain'_append.mp (by rw [hsplit]; exact hch :
    List.Chain' (pairOK s) (l.takeWhile (fun a => decide (a < b)) ++
      l.dropWhile (fun a => decide (a < b))))
  have hPN : pairOK s P N := hchsplit.2.2 P (by rw [hPlast]; rfl) N
    (by rw [hl2]; rfl)
  have hNprev : (getHdr s N).prev = P := hPN.2
  have hPendN : P + HDR + (getHdr s P).length < N := hPN.1
  have hNlt : N < s.end_brk := by
    have := hNOK.2.1
    unfold HDR at this
    omega
  have hlastl2 : (N :: t2).getLast? = some s.last_free_block := by
    rw [← hl2, ← List.getLast?_append_of_ne_nil _ (by rw [hl2]; simp :
      l.dropWhile (fun a => decide (a < b)) ≠ []), hsplit]
    exact hlast
  have hbltN : b < N := by
    have : N ≠ b := fun h => hbnotin (h ▸ hNmem)
    omega
  -- evaluating the two scans of the slot-search path
  have hlkl := links_of_chain s l hc
  have hlt0 : Links s (getHdr s s.free_blocks).next t0 := by
    rw [hlF] at hlkl
    exact hlkl.2.2
  have hlenl := chain_len_bound s l hOK hch
  have ht0len : t0.length < s.end_brk + 1 := by
    have h0 : l.length = t0.length + 1 := by rw [hlF]; simp
    omega
  have hl1F : l.takeWhile (fun a => decide (a < b)) =
      s.free_blocks :: t0.takeWhile (fun a => decide (a < b)) := by
    rw [hlF, List.takeWhile_cons, if_pos (by simpa using hFlt)]
  have hl2F : l.dropWhile (fun a => decide (a < b)) =
      t0.dropWhile (fun a => decide (a < b)) := by
    rw [hlF, List.dropWhile_cons, if_pos (by simpa using hFlt)]
  have hfwd : scanFwd s b (s.end_brk + 1) s.free_blocks
      (getHdr s s.free_blocks).next = (P, N) := by
    rw [scanFwd_spec s b (by omega : b ≤ s.end_brk) t0 s.free_blocks
      (s.end_brk + 1) hlt0 ht0len]
    have h2 : (s.free_blocks ::
        t0.takeWhile (fun a => decide (a < b))).getLast? = some P := by
      rw [← hl1F]
      exact hPlast
    have h1 : (t0.takeWhile (fun a => decide (a < b))).getLastD
        s.free_blocks = P := by
      rw [List.getLastD_eq_getLast?, ← getLastD_cons_eq 0 s.free_blocks, h2]
      rfl
    have h4 : (t0.dropWhile (fun a => decide (a < b))).headD s.end_brk = N := by
      rw [← hl2F, hl2]
      rfl
    rw [h1, h4]
  have hdropl : l.dropLast ++ [s.last_free_block] = l :=
    List.dropLast_append_getLast? _ hlast
  have hr : PrevLinksR s s.last_free_block l.dropLast.reverse := by
    refine prevlinks_of_pairOK s l.dropLast s.last_free_block ?_ ?_
    · rw [hdropl]; exact hch
    · rw [hdropl]; exact hhd
  have hrlen : l.dropLast.reverse.length < s.end_brk + 1 := by
    rw [List.length_reverse, List.length_dropLast]
    omega
  have hlid : (l1h ++ [P]) ++ N :: t2 = l := by
    rw [← hl1P, ← hl2]
    exact hsplit
  have hrevl1 : (l1h ++ [P]).reverse = P :: l1h.reverse := by
    rw [List.reverse_append]
    rfl
  have hbwd : scanBwd s b (s.end_brk + 1) (getHdr s s.last_free_block).prev
      s.last_free_block = (P, N) := by
    rw [scanBwd_spec s b l.dropLast.reverse s.last_free_block (s.end_brk + 1)
      hr hrlen]
    cases t2 with
    | nil =>
      have hNL : N = s.last_free_block := by simpa using hlastl2
      have hdl : l.dropLast = l1h ++ [P] := by
        have h0 : l = (l1h ++ [P]) ++ [N] := hlid.symm
        rw [h0, List.dropLast_concat]
      rw [hdl, hrevl1]
      rw [List.takeWhile_cons, if_neg (by simpa using (by omega : ¬ b < P)),
        List.dropWhile_cons, if_neg (by simpa using (by omega : ¬ b < P))]
      simp [hNL]
    | cons t2h t2t =>
      have hdl : l.dropLast = (l1h ++ [P]) ++ N :: (t2h :: t2t).dropLast := by
        conv_lhs => rw [← hlid]
        rw [List.append_assoc]
        rw [List.dropLast_append_of_ne_nil _ (by simp)]
        rw [List.dropLast_append_of_ne_nil _ (by simp)]
        simp
      have hrev : l.dropLast.reverse =
          (N :: (t2h :: t2t).dropLast).reverse ++ (P :: l1h.reverse) := by
        rw [hdl, List.reverse_append, hrevl1]
      have htw := takeWhile_append_of (fun a => decide (b < a))
        (N :: (t2h :: t2t).dropLast).reverse (P :: l1h.reverse)
        (by
          intro x hx
          have hx' : x ∈ N :: (t2h :: t2t).dropLast := by
            rw [← List.mem_reverse]
            exact hx
          rcases List.mem_cons.mp hx' with rfl | hx''
          · simpa using hbltN
          · have hxt2 : x ∈ t2h :: t2t :=
              (List.dropLast_sublist _).subset hx''
            have := ht2gtN x hxt2
            simp
            omega)
        (by
          intro y hy
          obtain rfl : P = y := by simpa using hy
          simpa using (by omega : ¬ b < P))
      rw [hrev, htw.1, htw.2]
      have hfst : (P :: l1h.reverse).headD 0 = P := rfl
      have hsnd : ((N :: (t2h :: t2t).dropLast).reverse).getLastD
          s.last_free_block = N := by
        rw [List.getLastD_eq_getLast?, List.getLast?_reverse]
        rfl
      rw [hfst, hsnd]
  have hscan : (if b < (s.start_brk + s.end_brk) % W / 2 then
      scanFwd s b (s.end_brk + 1) s.free_blocks
        (getHdr s s.free_blocks).next
    else
      scanBwd s b (s.end_brk + 1) (getHdr s s.last_free_block).prev
        s.last_free_block) = (P, N) := by
    split
    · exact hfwd
    · exact hbwd
  -- shared inequalities and link facts
  have hPneb : P ≠ b := by omega
  have hPneEnd : P ≠ s.end_brk := by
    have := hPOK.2.1
    unfold HDR at this
    omega
  have hbneEnd : b ≠ s.end_brk := by unfold HDR at hbend; omega
  have hPltN : P < N := by omega
  have hPneN : P ≠ N := by omega
  have hbneN : b ≠ N := by omega
  rw [hl1P] at hseg1
  obtain ⟨m2, hseg1a, hseg1b⟩ := seg_split s l1h [P] _ _ hseg1
  obtain ⟨hm2, -, hseg1c⟩ := hseg1b
  rw [hm2] at hseg1a
  have hPnext : (getHdr s P).next = N := by
    simp only [LinksSeg] at hseg1c
    exact hseg1c
  have htk : (l.takeWhile (fun a => decide (a < b))).Sublist l :=
    List.takeWhile_sublist _
  have hpwl1 : (l1h ++ [P]).Pairwise (· < ·) := by
    rw [← hl1P]
    exact hpw.sublist htk
  have hpwl2 : (N :: t2).Pairwise (· < ·) := by
    rw [← hl2]
    exact hpw.sublist hl2sub
  have hl1hltP : ∀ x ∈ l1h, x < P := by
    intro x hx
    exact (List.pairwise_append.mp hpwl1).2.2 x hx P (by simp)
  have hl1hneb : ∀ x ∈ l1h, x ≠ b := fun x hx => by
    have := hl1hltP x hx; omega
  have hl1hneP : ∀ x ∈ l1h, x ≠ P := fun x hx => by
    have := hl1hltP x hx; omega
  have hl1hneN : ∀ x ∈ l1h, x ≠ N := fun x hx => by
    have := hl1hltP x hx; omega
  have ht2neb : ∀ x ∈ t2, x ≠ b := fun x hx => by
    have := ht2gtN x hx; omega
  have ht2neP : ∀ x ∈ t2, x ≠ P := fun x hx => by
    have := ht2gtN x hx; omega
  have ht2neN : ∀ x ∈ t2, x ≠ N := fun x hx => by
    have := ht2gtN x hx; omega
  have hchl1 : List.Chain' (pairOK s) (l1h ++ [P]) := by
    rw [← hl1P]
    exact hchsplit.1
  have hchl2 : List.Chain' (pairOK s) (N :: t2) := by
    rw [← hl2]
    exact hchsplit.2.1
  have hheadl : (l1h ++ [P]).head? = l.head? := by
    rw [← hl1P, ← List.head?_append_of_ne_nil _ hl1ne, hsplit]
  by_cases hSnext : (getHdr s (b + HDR + (getHdr s b).length)).next = 0
  · -- the block after b is allocated: search the list for the slot
    have hNnext0 : (getHdr s N).next ≠ 0 :=
      chain_next_ne_zero s l hc hOK hstart N hNmem
    have hSltN : b + HDR + (getHdr s b).length < N := by
      have : b + HDR + (getHdr s b).length ≠ N := by
        intro h0
        rw [h0] at hSnext
        exact hNnext0 hSnext
      omega
    by_cases hPadj : P + HDR + (getHdr s P).length = b
    · -- leaf: merge b into P
      have hstep : free_caseC s b =
          setPrev (setNext (setLength (setPrev (setNext s b N) N b) P
            ((getHdr s P).length + (getHdr s b).length + HDR)) P N) N P := by
        simp only [free_caseC]
        rw [if_neg (not_not_intro hSnext), hscan]
        simp only [setNext_eq, setPrev_eq, setLength_eq, getHdr_setHdr_same,
          setHdr_end_brk,
          getHdr_setHdr_ne _ _ _ _ hPneb, getHdr_setHdr_ne _ _ _ _ hPneN,
          getHdr_setHdr_ne _ _ _ _ (Ne.symm hPneb),
          getHdr_setHdr_ne _ _ _ _ hbneN]
        rw [if_pos hPadj, if_pos hNe]
      have hgP : getHdr (free_caseC s b) P =
          ⟨(getHdr s P).length + (getHdr s b).length + HDR,
            (getHdr s P).prev, N⟩ := by
        rw [hstep]
        show getHdr (setPrev (setNext (setLength (setPrev (setNext s b N) N b)
          P _) P N) N P) P = _
        simp [getHdr_eq, lookupHdr_cons_ne _ _ _ _ hPneN,
          lookupHdr_cons_ne _ _ _ _ hPneb]
      have hgN : getHdr (free_caseC s b) N = { getHdr s N with prev := P } := by
        rw [hstep]
        show getHdr (setPrev (setNext (setLength (setPrev (setNext s b N) N b)
          P _) P N) N P) N = _
        simp [getHdr_eq, lookupHdr_cons_ne _ _ _ _ (Ne.symm hPneN),
          lookupHdr_cons_ne _ _ _ _ (Ne.symm hbneN)]
      have hg3 : ∀ x, x ≠ b → x ≠ P → x ≠ N →
          getHdr (free_caseC s b) x = getHdr s x := by
        intro x hxb hxP hxN
        rw [hstep]
        show getHdr (setPrev (setNext (setLength (setPrev (setNext s b N) N b)
          P _) P N) N P) x = _
        simp [getHdr_eq, lookupHdr_cons_ne _ _ _ _ hxb,
          lookupHdr_cons_ne _ _ _ _ hxP, lookupHdr_cons_ne _ _ _ _ hxN]
      have hend' : (free_caseC s b).end_brk = s.end_brk := by rw [hstep]; rfl
      have hsb' : (free_caseC s b).start_brk = s.start_brk := by
        rw [hstep]; rfl
      have hfb' : (free_caseC s b).free_blocks = s.free_blocks := by
        rw [hstep]; rfl
      have hgPlen : (getHdr (free_caseC s b) P).length =
          (getHdr s P).length + (getHdr s b).length + HDR := by rw [hgP]
      have hgPprev : (getHdr (free_caseC s b) P).prev =
          (getHdr s P).prev := by rw [hgP]
      have hgPnext : (getHdr (free_caseC s b) P).next = N := by rw [hgP]
      have hgNlen : (getHdr (free_caseC s b) N).length =
          (getHdr s N).length := by rw [hgN]
      have hgNprev : (getHdr (free_caseC s b) N).prev = P := by rw [hgN]
      have hgNnext : (getHdr (free_caseC s b) N).next =
          (getHdr s N).next := by rw [hgN]
      refine ⟨(l1h ++ [P]) ++ N :: t2, ?_, by simp, ?_, ?_, ?_⟩
      · refine chain_of_links _ _ ?_ ?_
        · rw [hfb', links_eq_seg]
          have hA1 : LinksSeg (free_caseC s b) s.free_blocks l1h P := by
            refine seg_congr s _ hend' _ _ _ ?_ hseg1a
            intro x hx
            rw [hg3 x (hl1hneb x hx) (hl1hneP x hx) (hl1hneN x hx)]
          have hA2 : LinksSeg (free_caseC s b) P [P, N]
              (getHdr s N).next := by
            refine ⟨rfl, by rw [hend']; exact hPneEnd, ?_⟩
            rw [hgPnext]
            refine ⟨rfl, by rw [hend']; exact hNe, ?_⟩
            rw [hgNnext]
            rfl
          have hA3 : LinksSeg (free_caseC s b) (getHdr s N).next t2
              (free_caseC s b).end_brk := by
            rw [hend']
            refine seg_congr s _ hend' _ _ _ ?_ hseg3
            intro x hx
            rw [hg3 x (ht2neb x hx) (ht2neP x hx) (ht2neN x hx)]
          have hall := seg_append _ _ _ _ _ _ hA1
            (seg_append _ _ _ _ _ _ hA2 hA3)
          have heq : l1h ++ ([P, N] ++ t2) =
              (l1h ++ [P]) ++ N :: t2 := by simp
          rw [← heq]
          exact hall
        · rw [hlid, hend']
          exact hlenl
      · intro a ha
        rcases List.mem_append.mp ha with h | h
        · by_cases haP : a = P
          · subst haP
            refine ⟨by rw [hsb']; exact hPOK.1, ?_, ?_⟩
            · rw [hgPlen, hend']
              omega
            · rw [hgPlen]
              omega
          · have hal1 : a ∈ l1h := by
              rcases List.mem_append.mp h with h' | h'
              · exact h'
              · exact absurd (by simpa using h') haP
            exact blockOK_congr s _ _
              (by rw [hg3 a (hl1hneb a hal1) haP (hl1hneN a hal1)]) hsb'
              (by rw [hend'])
              (hOK a (htk.subset (by rw [hl1P]; exact h)))
        · rcases List.mem_cons.mp h with rfl | h'
          · exact blockOK_congr s _ _ hgNlen hsb' (by rw [hend']) hNOK
          · exact blockOK_congr s _ _
              (by rw [hg3 a (ht2neb a h') (ht2neP a h') (ht2neN a h')])
              hsb' (by rw [hend'])
              (hOK a (hl2sub.subset (by rw [hl2]; simp [h'])))
      · rw [List.chain'_append]
        refine ⟨?_, ?_, ?_⟩
        · refine chain'_pairOK_last_len s _ l1h P ?_ hgPprev hchl1
          intro a ha
          rw [hg3 a (hl1hneb a ha) (hl1hneP a ha) (hl1hneN a ha)]
        · refine chain'_pairOK_head s _ _ t2 ?_ hgNlen hchl2
          intro a ha
          rw [hg3 a (ht2neb a ha) (ht2neP a ha) (ht2neN a ha)]
        · intro x hx y hy
          obtain rfl : x = P := by
            rw [List.getLast?_concat] at hx
            exact ((by simpa using hx : P = x)).symm
          obtain rfl : N = y := by simpa using hy
          refine ⟨?_, hgNprev⟩
          rw [hgPlen]
          omega
      · intro h hh
        have hh1 : h ∈ (l1h ++ [P]).head? := by
          rwa [List.head?_append_of_ne_nil _ (by rw [← hl1P]; exact hl1ne)]
            at hh
        have hhl : h ∈ l.head? := by rwa [hheadl] at hh1
        have hprev0 := hhd h hhl
        have hhm : h ∈ l1h ++ [P] := List.mem_of_mem_head? hh1
        by_cases hhP : h = P
        · subst hhP
          rw [hgPprev]
          exact hprev0
        · have hal1 : h ∈ l1h := by
            rcases List.mem_append.mp hhm with h' | h'
            · exact h'
            · exact absurd (by simpa using h') hhP
          rw [hg3 h (hl1hneb h hal1) hhP (hl1hneN h hal1)]
          exact hprev0
    · -- leaf: splice b between P and N
      have hstep : free_caseC s b =
          setPrev (setNext (setPrev (setNext s b N) N b) P b) b P := by
        simp only [free_caseC]
        rw [if_neg (not_not_intro hSnext), hscan]
        simp only [setNext_eq, setPrev_eq, getHdr_setHdr_same,
          getHdr_setHdr_ne _ _ _ _ hPneb, getHdr_setHdr_ne _ _ _ _ hPneN]
        rw [if_neg hPadj]
      have hgb : getHdr (free_caseC s b) b =
          ⟨(getHdr s b).length, P, N⟩ := by
        rw [hstep]
        show getHdr (setPrev (setNext (setPrev (setNext s b N) N b) P b) b P)
          b = _
        simp [getHdr_eq, lookupHdr_cons_ne _ _ _ _ (Ne.symm hPneb),
          lookupHdr_cons_ne _ _ _ _ hbneN]
      have hgP : getHdr (free_caseC s b) P = { getHdr s P with next := b } := by
        rw [hstep]
        show getHdr (setPrev (setNext (setPrev (setNext s b N) N b) P b) b P)
          P = _
        simp [getHdr_eq, lookupHdr_cons_ne _ _ _ _ hPneb,
          lookupHdr_cons_ne _ _ _ _ hPneN]
      have hgN : getHdr (free_caseC s b) N = { getHdr s N with prev := b } := by
        rw [hstep]
        show getHdr (setPrev (setNext (setPrev (setNext s b N) N b) P b) b P)
          N = _
        simp [getHdr_eq, lookupHdr_cons_ne _ _ _ _ (Ne.symm hbneN),
          lookupHdr_cons_ne _ _ _ _ (Ne.symm hPneN)]
      have hg3 : ∀ x, x ≠ b → x ≠ P → x ≠ N →
          getHdr (free_caseC s b) x = getHdr s x := by
        intro x hxb hxP hxN
        rw [hstep]
        show getHdr (setPrev (setNext (setPrev (setNext s b N) N b) P b) b P)
          x = _
        simp [getHdr_eq, lookupHdr_cons_ne _ _ _ _ hxb,
          lookupHdr_cons_ne _ _ _ _ hxP, lookupHdr_cons_ne _ _ _ _ hxN]
      have hend' : (free_caseC s b).end_brk = s.end_brk := by rw [hstep]; rfl
      have hsb' : (free_caseC s b).start_brk = s.start_brk := by
        rw [hstep]; rfl
      have hfb' : (free_caseC s b).free_blocks = s.free_blocks := by
        rw [hstep]; rfl
      have hgblen : (getHdr (free_caseC s b) b).length =
          (getHdr s b).length := by rw [hgb]
      have hgbprev : (getHdr (free_caseC s b) b).prev = P := by rw [hgb]
      have hgbnext : (getHdr (free_caseC s b) b).next = N := by rw [hgb]
      have hgPlen : (getHdr (free_caseC s b) P).length =
          (getHdr s P).length := by rw [hgP]
      have hgPprev : (getHdr (free_caseC s b) P).prev =
          (getHdr s P).prev := by rw [hgP]
      have hgPnext : (getHdr (free_caseC s b) P).next = b := by rw [hgP]
      have hgNlen : (getHdr (free_caseC s b) N).length =
          (getHdr s N).length := by rw [hgN]
      have hgNprev : (getHdr (free_caseC s b) N).prev = b := by rw [hgN]
      have hgNnext : (getHdr (free_caseC s b) N).next =
          (getHdr s N).next := by rw [hgN]
      refine ⟨(l1h ++ [P]) ++ b :: N :: t2, ?_, by simp, ?_, ?_, ?_⟩
      · -- the chain gains b between P and N
        refine chain_of_links _ _ ?_ ?_
        · rw [hfb', links_eq_seg]
          have hA1 : LinksSeg (free_caseC s b) s.free_blocks l1h P := by
            refine seg_congr s _ hend' _ _ _ ?_ hseg1a
            intro x hx
            rw [hg3 x (hl1hneb x hx) (hl1hneP x hx) (hl1hneN x hx)]
          have hA2 : LinksSeg (free_caseC s b) P [P, b, N]
              (getHdr s N).next := by
            refine ⟨rfl, by rw [hend']; exact hPneEnd, ?_⟩
            rw [hgPnext]
            refine ⟨rfl, by rw [hend']; exact hbneEnd, ?_⟩
            rw [hgbnext]
            refine ⟨rfl, by rw [hend']; exact hNe, ?_⟩
            rw [hgNnext]
            rfl
          have hA3 : LinksSeg (free_caseC s b) (getHdr s N).next t2
              (free_caseC s b).end_brk := by
            rw [hend']
            refine seg_congr s _ hend' _ _ _ ?_ hseg3
            intro x hx
            rw [hg3 x (ht2neb x hx) (ht2neP x hx) (ht2neN x hx)]
          have hall := seg_append _ _ _ _ _ _ hA1
            (seg_append _ _ _ _ _ _ hA2 hA3)
          have heq : l1h ++ ([P, b, N] ++ t2) =
              (l1h ++ [P]) ++ b :: N :: t2 := by simp
          rw [← heq]
          exact hall
        · rw [hend']
          refine sorted_len_le s.end_brk _ ?_ ?_
          · rw [List.pairwise_append]
            refine ⟨hpwl1, ?_, ?_⟩
            · refine List.pairwise_cons.mpr ⟨?_, List.pairwise_cons.mpr
                ⟨?_, (List.pairwise_cons.mp hpwl2).2⟩⟩
              · intro x hx
                rcases List.mem_cons.mp hx with rfl | hx'
                · omega
                · have := ht2gtN x hx'
                  omega
              · intro x hx
                have := ht2gtN x hx
                omega
            · intro x hx y hy
              have hx1 : x < b := hl1mem x (by rw [hl1P]; exact hx)
              rcases List.mem_cons.mp hy with rfl | hy'
              · omega
              · rcases List.mem_cons.mp hy' with rfl | hy''
                · omega
                · have := ht2gtN y hy''
                  omega
          · intro a ha
            rcases List.mem_append.mp ha with h | h
            · have ham : a ∈ l := htk.subset (by rw [hl1P]; exact h)
              have := (hOK a ham).2.1
              unfold HDR at this
              omega
            · rcases List.mem_cons.mp h with rfl | h'
              · unfold HDR at hbend
                omega
              · rcases List.mem_cons.mp h' with rfl | h''
                · have hN2 := hNOK.2.1
                  unfold HDR at hN2
                  omega
                · have ham : a ∈ l := hl2sub.subset (by rw [hl2]; simp [h''])
                  have := (hOK a ham).2.1
                  unfold HDR at this
                  omega
      · -- blocks stay in range
        intro a ha
        rcases List.mem_append.mp ha with h | h
        · by_cases haP : a = P
          · subst haP
            exact blockOK_congr s _ _ hgPlen hsb' (by rw [hend']) hPOK
          · have hal1 : a ∈ l1h := by
              rcases List.mem_append.mp h with h' | h'
              · exact h'
              · exact absurd (by simpa using h') haP
            exact blockOK_congr s _ _
              (by rw [hg3 a (hl1hneb a hal1) haP (hl1hneN a hal1)]) hsb'
              (by rw [hend'])
              (hOK a (htk.subset (by rw [hl1P]; exact h)))
        · rcases List.mem_cons.mp h with rfl | h'
          · exact ⟨by rw [hsb']; exact hbin,
              by rw [hgblen, hend']; exact hbend, by rw [hgblen]; exact hb8⟩
          · rcases List.mem_cons.mp h' with rfl | h''
            · exact blockOK_congr s _ _ hgNlen hsb' (by rw [hend']) hNOK
            · exact blockOK_congr s _ _
                (by rw [hg3 a (ht2neb a h'') (ht2neP a h'') (ht2neN a h'')])
                hsb' (by rw [hend'])
                (hOK a (hl2sub.subset (by rw [hl2]; simp [h''])))
      · -- consecutive pairs
        rw [List.chain'_append]
        refine ⟨?_, ?_, ?_⟩
        · refine chain'_pairOK_congr s _ _ ?_ hchl1
          intro a ha
          by_cases haP : a = P
          · subst haP
            exact ⟨hgPlen, hgPprev⟩
          · have hal1 : a ∈ l1h := by
              rcases List.mem_append.mp ha with h' | h'
              · exact h'
              · exact absurd (by simpa using h') haP
            rw [hg3 a (hl1hneb a hal1) haP (hl1hneN a hal1)]
            exact ⟨rfl, rfl⟩
        · rw [List.chain'_cons']
          refine ⟨?_, ?_⟩
          · intro y hy
            obtain rfl : N = y := by simpa using hy
            exact ⟨by rw [hgblen]; exact hSltN, hgNprev⟩
          · refine chain'_pairOK_head s _ _ t2 ?_ hgNlen hchl2
            intro a ha
            rw [hg3 a (ht2neb a ha) (ht2neP a ha) (ht2neN a ha)]
        · intro x hx y hy
          obtain rfl : x = P := by
            rw [List.getLast?_concat] at hx
            exact ((by simpa using hx : P = x)).symm
          obtain rfl : b = y := by simpa using hy
          refine ⟨?_, hgbprev⟩
          rw [hgPlen]
          omega
      · -- the head keeps a null back pointer
        intro h hh
        have hh1 : h ∈ (l1h ++ [P]).head? := by
          rwa [List.head?_append_of_ne_nil _ (by rw [← hl1P]; exact hl1ne)]
            at hh
        have hhl : h ∈ l.head? := by rwa [hheadl] at hh1
        have hprev0 := hhd h hhl
        have hhm : h ∈ l1h ++ [P] := List.mem_of_mem_head? hh1
        by_cases hhP : h = P
        · subst hhP
          rw [hgPprev]
          exact hprev0
        · have hal1 : h ∈ l1h := by
            rcases List.mem_append.mp hhm with h' | h'
            · exact h'
            · exact absurd (by simpa using h') hhP
          rw [hg3 h (hl1hneb h hal1) hhP (hl1hneN h hal1)]
          exact hprev0
  · -- the block after b is a free block: merge with it first
    have hSmem : b + HDR + (getHdr s b).length ∈ l := by
      rcases hsucc with h | h
      · exact h
      · exact absurd h hSnext
    have hSN : b + HDR + (getHdr s b).length = N := by
      have h1 : b + HDR + (getHdr s b).length ∈
          l.takeWhile (fun a => decide (a < b)) ++
          l.dropWhile (fun a => decide (a < b)) := by
        rw [hsplit]
        exact hSmem
      rcases List.mem_append.mp h1 with h | h
      · have := hl1mem _ h
        omega
      · rw [hl2] at h
        rcases List.mem_cons.mp h with h' | h'
        · exact h'
        · have := ht2gtN _ h'
          omega
    have hNend : N + HDR + (getHdr s N).length ≤ s.end_brk := hNOK.2.1
    have hN8 : 8 ≤ (getHdr s N).length := hNOK.2.2
    have hchl2' := List.chain'_cons'.mp hchl2
    cases t2 with
    | nil =>
      -- the merged successor was the last free block
      have hNSe : (getHdr s N).next = s.end_brk := by
        simp only [LinksSeg] at hseg3
        exact hseg3
      have hNprevL : (lookupHdr s.hdrs N).prev = P := hNprev
      have hNSeL : (lookupHdr s.hdrs N).next = s.end_brk := hNSe
      by_cases hPadj : P + HDR + (getHdr s P).length = b
      · -- merge on both sides: P absorbs b and N
        have hPadjL : P + HDR + (lookupHdr s.hdrs P).length = b := hPadj
        have hstep : free_caseC s b =
            { setNext (setLength ({ setNext (setLength s b
                ((getHdr s b).length + (getHdr s N).length + HDR)) b
                s.end_brk with last_free_block := b }) P
                ((getHdr s P).length +
                  ((getHdr s b).length + (getHdr s N).length + HDR) + HDR))
                P s.end_brk with
              last_free_block := P } := by
          simp only [free_caseC]
          rw [if_pos hSnext, hSN]
          simp only [setNext_eq, setPrev_eq, setLength_eq, getHdr_eq,
            setHdr_hdrs, setHdr_end_brk, lookupHdr_cons_same,
            lookupHdr_cons_ne _ _ _ _ (Ne.symm hbneN),
            lookupHdr_cons_ne _ _ _ _ (Ne.symm hPneN),
            lookupHdr_cons_ne _ _ _ _ hPneb,
            lookupHdr_cons_ne _ _ _ _ (Ne.symm hPneb),
            hNprevL, hNSeL]
          rw [if_neg (show ¬ (s.end_brk ≠ s.end_brk) by simp)]
          simp only [setNext_eq, setPrev_eq, setLength_eq, getHdr_eq,
            setHdr_hdrs, setHdr_end_brk, lookupHdr_cons_same,
            lookupHdr_cons_ne _ _ _ _ (Ne.symm hbneN),
            lookupHdr_cons_ne _ _ _ _ (Ne.symm hPneN),
            lookupHdr_cons_ne _ _ _ _ hPneb,
            lookupHdr_cons_ne _ _ _ _ (Ne.symm hPneb),
            hNprevL, hNSeL]
          rw [if_pos hPadjL]
          rw [if_neg (show ¬ (s.end_brk ≠ s.end_brk) by simp)]
        have hgP : getHdr (free_caseC s b) P =
            ⟨(getHdr s P).length +
              ((getHdr s b).length + (getHdr s N).length + HDR) + HDR,
              (getHdr s P).prev, s.end_brk⟩ := by
          rw [hstep]
          show getHdr (setNext (setLength (setNext (setLength s b _) b
            s.end_brk) P _) P s.end_brk) P = _
          simp [getHdr_eq, lookupHdr_cons_ne _ _ _ _ hPneb]
        have hg3 : ∀ x, x ≠ b → x ≠ P →
            getHdr (free_caseC s b) x = getHdr s x := by
          intro x hxb hxP
          rw [hstep]
          show getHdr (setNext (setLength (setNext (setLength s b _) b
            s.end_brk) P _) P s.end_brk) x = _
          simp [getHdr_eq, lookupHdr_cons_ne _ _ _ _ hxb,
            lookupHdr_cons_ne _ _ _ _ hxP]
        have hend' : (free_caseC s b).end_brk = s.end_brk := by rw [hstep]; rfl
        have hsb' : (free_caseC s b).start_brk = s.start_brk := by
          rw [hstep]; rfl
        have hfb' : (free_caseC s b).free_blocks = s.free_blocks := by
          rw [hstep]; rfl
        have hgPlen : (getHdr (free_caseC s b) P).length =
            (getHdr s P).length +
              ((getHdr s b).length + (getHdr s N).length + HDR) + HDR := by
          rw [hgP]
        have hgPprev : (getHdr (free_caseC s b) P).prev =
            (getHdr s P).prev := by rw [hgP]
        have hgPnext : (getHdr (free_caseC s b) P).next = s.end_brk := by
          rw [hgP]
        refine ⟨l1h ++ [P], ?_, by simp, ?_, ?_, ?_⟩
        · refine chain_of_links _ _ ?_ ?_
          · rw [hfb', links_eq_seg]
            have hA1 : LinksSeg (free_caseC s b) s.free_blocks l1h P := by
              refine seg_congr s _ hend' _ _ _ ?_ hseg1a
              intro x hx
              rw [hg3 x (hl1hneb x hx) (hl1hneP x hx)]
            have hA2 : LinksSeg (free_caseC s b) P [P]
                (free_caseC s b).end_brk := by
              refine ⟨rfl, by rw [hend']; exact hPneEnd, ?_⟩
              rw [hgPnext]
              show (s.end_brk : Nat) = (free_caseC s b).end_brk
              rw [hend']
            exact seg_append _ _ _ _ _ _ hA1 hA2
          · rw [hend']
            refine sorted_len_le s.end_brk _ hpwl1 ?_
            intro a ha
            have ham : a ∈ l := htk.subset (by rw [hl1P]; exact ha)
            have := (hOK a ham).2.1
            unfold HDR at this
            omega
        · intro a ha
          by_cases haP : a = P
          · subst haP
            refine ⟨by rw [hsb']; exact hPOK.1, ?_, ?_⟩
            · rw [hgPlen, hend']
              omega
            · rw [hgPlen]
              omega
          · have hal1 : a ∈ l1h := by
              rcases List.mem_append.mp ha with h' | h'
              · exact h'
              · exact absurd (by simpa using h') haP
            exact blockOK_congr s _ _
              (by rw [hg3 a (hl1hneb a hal1) haP]) hsb'
              (by rw [hend'])
              (hOK a (htk.subset (by rw [hl1P]; exact ha)))
        · refine chain'_pairOK_last_len s _ l1h P ?_ hgPprev hchl1
          intro a ha
          rw [hg3 a (hl1hneb a ha) (hl1hneP a ha)]
        · intro h hh
          have hh1 : h ∈ (l1h ++ [P]).head? := hh
          have hhl : h ∈ l.head? := by rwa [hheadl] at hh1
          have hprev0 := hhd h hhl
          have hhm : h ∈ l1h ++ [P] := List.mem_of_mem_head? hh1
          by_cases hhP : h = P
          · subst hhP
            rw [hgPprev]
            exact hprev0
          · have hal1 : h ∈ l1h := by
              rcases List.mem_append.mp hhm with h' | h'
              · exact h'
              · exact absurd (by simpa using h') hhP
            rw [hg3 h (hl1hneb h hal1) hhP]
            exact hprev0
      · -- merge with successor only; splice after P
        have hPadjL : ¬ P + HDR + (lookupHdr s.hdrs P).length = b := hPadj
        have hstep : free_caseC s b =
            setPrev (setNext ({ setNext (setLength s b
                ((getHdr s b).length + (getHdr s N).length + HDR)) b
                s.end_brk with last_free_block := b }) P b) b P := by
          simp only [free_caseC]
          rw [if_pos hSnext, hSN]
          simp only [setNext_eq, setPrev_eq, setLength_eq, getHdr_eq,
            setHdr_hdrs, setHdr_end_brk, lookupHdr_cons_same,
            lookupHdr_cons_ne _ _ _ _ (Ne.symm hbneN),
            lookupHdr_cons_ne _ _ _ _ (Ne.symm hPneN),
            lookupHdr_cons_ne _ _ _ _ hPneb,
            lookupHdr_cons_ne _ _ _ _ (Ne.symm hPneb),
            hNprevL, hNSeL]
          rw [if_neg (show ¬ (s.end_brk ≠ s.end_brk) by simp)]
          simp only [setNext_eq, setPrev_eq, setLength_eq, getHdr_eq,
            setHdr_hdrs, setHdr_end_brk, lookupHdr_cons_same,
            lookupHdr_cons_ne _ _ _ _ (Ne.symm hbneN),
            lookupHdr_cons_ne _ _ _ _ (Ne.symm hPneN),
            lookupHdr_cons_ne _ _ _ _ hPneb,
            lookupHdr_cons_ne _ _ _ _ (Ne.symm hPneb),
            hNprevL, hNSeL]
          rw [if_neg hPadjL]
        have hgb : getHdr (free_caseC s b) b =
            ⟨(getHdr s b).length + (getHdr s N).length + HDR, P,
              s.end_brk⟩ := by
          rw [hstep]
          show getHdr (setPrev (setNext (setNext (setLength s b _) b
            s.end_brk) P b) b P) b = _
          simp [getHdr_eq, lookupHdr_cons_ne _ _ _ _ (Ne.symm hPneb)]
        have hgP : getHdr (free_caseC s b) P =
            { getHdr s P with next := b } := by
          rw [hstep]
          show getHdr (setPrev (setNext (setNext (setLength s b _) b
            s.end_brk) P b) b P) P = _
          simp [getHdr_eq, lookupHdr_cons_ne _ _ _ _ hPneb]
        have hg3 : ∀ x, x ≠ b → x ≠ P →
            getHdr (free_caseC s b) x = getHdr s x := by
          intro x hxb hxP
          rw [hstep]
          show getHdr (setPrev (setNext (setNext (setLength s b _) b
            s.end_brk) P b) b P) x = _
          simp [getHdr_eq, lookupHdr_cons_ne _ _ _ _ hxb,
            lookupHdr_cons_ne _ _ _ _ hxP]
        have hend' : (free_caseC s b).end_brk = s.end_brk := by rw [hstep]; rfl
        have hsb' : (free_caseC s b).start_brk = s.start_brk := by
          rw [hstep]; rfl
        have hfb' : (free_caseC s b).free_blocks = s.free_blocks := by
          rw [hstep]; rfl
        have hgblen : (getHdr (free_caseC s b) b).length =
            (getHdr s b).length + (getHdr s N).length + HDR := by rw [hgb]
        have hgbprev : (getHdr (free_caseC s b) b).prev = P := by rw [hgb]
        have hgbnext : (getHdr (free_caseC s b) b).next = s.end_brk := by
          rw [hgb]
        have hgPlen : (getHdr (free_caseC s b) P).length =
            (getHdr s P).length := by rw [hgP]
        have hgPprev : (getHdr (free_caseC s b) P).prev =
            (getHdr s P).prev := by rw [hgP]
        have hgPnext : (getHdr (free_caseC s b) P).next = b := by rw [hgP]
        refine ⟨(l1h ++ [P]) ++ [b], ?_, by simp, ?_, ?_, ?_⟩
        · refine chain_of_links _ _ ?_ ?_
          · rw [hfb', links_eq_seg]
            have hA1 : LinksSeg (free_caseC s b) s.free_blocks l1h P := by
              refine seg_congr s _ hend' _ _ _ ?_ hseg1a
              intro x hx
              rw [hg3 x (hl1hneb x hx) (hl1hneP x hx)]
            have hA2 : LinksSeg (free_caseC s b) P [P, b]
                (free_caseC s b).end_brk := by
              refine ⟨rfl, by rw [hend']; exact hPneEnd, ?_⟩
              rw [hgPnext]
              refine ⟨rfl, by rw [hend']; exact hbneEnd, ?_⟩
              rw [hgbnext]
              show (s.end_brk : Nat) = (free_caseC s b).end_brk
              rw [hend']
            have hall := seg_append _ _ _ _ _ _ hA1 hA2
            have heq : l1h ++ [P, b] = (l1h ++ [P]) ++ [b] := by simp
            rw [← heq]
            exact hall
          · rw [hend']
            refine sorted_len_le s.end_brk _ ?_ ?_
            · rw [List.pairwise_append]
              refine ⟨hpwl1, by simp, ?_⟩
              intro x hx y hy
              obtain rfl : y = b := by simpa using hy
              rcases List.mem_append.mp hx with h' | h'
              · have := hl1hltP x h'
                omega
              · obtain rfl : x = P := by simpa using h'
                omega
            · intro a ha
              rcases List.mem_append.mp ha with h | h
              · have ham : a ∈ l := htk.subset (by rw [hl1P]; exact h)
                have := (hOK a ham).2.1
                unfold HDR at this
                omega
              · obtain rfl : a = b := by simpa using h
                unfold HDR at hbend
                omega
        · intro a ha
          rcases List.mem_append.mp ha with h | h
          · by_cases haP : a = P
            · subst haP
              exact blockOK_congr s _ _ hgPlen hsb' (by rw [hend']) hPOK
            · have hal1 : a ∈ l1h := by
                rcases List.mem_append.mp h with h' | h'
                · exact h'
                · exact absurd (by simpa using h') haP
              exact blockOK_congr s _ _
                (by rw [hg3 a (hl1hneb a hal1) haP]) hsb'
                (by rw [hend'])
                (hOK a (htk.subset (by rw [hl1P]; exact h)))
          · obtain rfl : a = b := by simpa using h
            refine ⟨by rw [hsb']; exact hbin, ?_, ?_⟩
            · rw [hgblen, hend']
              omega
            · rw [hgblen]
              omega
        · rw [List.chain'_append]
          refine ⟨?_, List.chain'_singleton b, ?_⟩
          · refine chain'_pairOK_congr s _ _ ?_ hchl1
            intro a ha
            by_cases haP : a = P
            · subst haP
              exact ⟨hgPlen, hgPprev⟩
            · have hal1 : a ∈ l1h := by
                rcases List.mem_append.mp ha with h' | h'
                · exact h'
                · exact absurd (by simpa using h') haP
              rw [hg3 a (hl1hneb a hal1) haP]
              exact ⟨rfl, rfl⟩
          · intro x hx y hy
            obtain rfl : x = P := by
              rw [List.getLast?_concat] at hx
              exact ((by simpa using hx : P = x)).symm
            obtain rfl : b = y := by simpa using hy
            refine ⟨?_, hgbprev⟩
            rw [hgPlen]
            omega
        · intro h hh
          have hh1 : h ∈ (l1h ++ [P]).head? := by
            rwa [List.head?_append_of_ne_nil _ (by rw [← hl1P]; exact hl1ne)]
              at hh
          have hhl : h ∈ l.head? := by rwa [hheadl] at hh1
          have hprev0 := hhd h hhl
          have hhm : h ∈ l1h ++ [P] := List.mem_of_mem_head? hh1
          by_cases hhP : h = P
          · subst hhP
            rw [hgPprev]
            exact hprev0
          · have hal1 : h ∈ l1h := by
              rcases List.mem_append.mp hhm with h' | h'
              · exact h'
              · exact absurd (by simpa using h') hhP
            rw [hg3 h (hl1hneb h hal1) hhP]
            exact hprev0
    | cons NN t2t =>
      obtain ⟨hNN, hNNe, hseg4⟩ := hseg3
      have hNprevL : (lookupHdr s.hdrs N).prev = P := hNprev
      have hNNL : (lookupHdr s.hdrs N).next = NN := hNN
      have hNNgtN : N < NN := ht2gtN NN (by simp)
      have hbneNN : b ≠ NN := by omega
      have hPneNN : P ≠ NN := by omega
      have hNneNN : N ≠ NN := by omega
      have hNNmem : NN ∈ l := hl2sub.subset (by rw [hl2]; simp)
      have hNNOK : blockOK s NN := hOK NN hNNmem
      have ht2tgtNN : ∀ x ∈ t2t, NN < x :=
        (List.pairwise_cons.mp (List.pairwise_cons.mp hpwl2).2).1
      have ht2tneb : ∀ x ∈ t2t, x ≠ b := fun x hx => by
        have := ht2tgtNN x hx; omega
      have ht2tneP : ∀ x ∈ t2t, x ≠ P := fun x hx => by
        have := ht2tgtNN x hx; omega
      have ht2tneNN : ∀ x ∈ t2t, x ≠ NN := fun x hx => by
        have := ht2tgtNN x hx; omega
      have hpairNNN : pairOK s N NN := (List.chain'_cons'.mp hchl2).1 NN rfl
      have hchl2tail : List.Chain' (pairOK s) (NN :: t2t) :=
        (List.chain'_cons'.mp hchl2).2
      by_cases hPadj : P + HDR + (getHdr s P).length = b
      · -- merge on both sides: P absorbs b and the successor
        have hPadjL : P + HDR + (lookupHdr s.hdrs P).length = b := hPadj
        have hstep : free_caseC s b =
            setPrev (setNext (setLength (setPrev (setNext (setLength s b
              ((getHdr s b).length + (getHdr s N).length + HDR)) b NN) NN b) P
              ((getHdr s P).length +
                ((getHdr s b).length + (getHdr s N).length + HDR) + HDR))
              P NN) NN P := by
          simp only [free_caseC]
          rw [if_pos hSnext, hSN]
          simp only [setNext_eq, setPrev_eq, setLength_eq, getHdr_eq,
            setHdr_hdrs, setHdr_end_brk, lookupHdr_cons_same,
            lookupHdr_cons_ne _ _ _ _ (Ne.symm hbneN),
            lookupHdr_cons_ne _ _ _ _ (Ne.symm hPneN),
            lookupHdr_cons_ne _ _ _ _ hPneb,
            lookupHdr_cons_ne _ _ _ _ (Ne.symm hPneb),
            lookupHdr_cons_ne _ _ _ _ hbneNN,
            lookupHdr_cons_ne _ _ _ _ (Ne.symm hbneNN),
            lookupHdr_cons_ne _ _ _ _ hPneNN,
            lookupHdr_cons_ne _ _ _ _ hNneNN,
            lookupHdr_cons_ne _ _ _ _ (Ne.symm hNneNN),
            hNprevL, hNNL]
          rw [if_pos hNNe]
          simp only [setNext_eq, setPrev_eq, setLength_eq, getHdr_eq,
            setHdr_hdrs, setHdr_end_brk, lookupHdr_cons_same,
            lookupHdr_cons_ne _ _ _ _ (Ne.symm hbneN),
            lookupHdr_cons_ne _ _ _ _ (Ne.symm hPneN),
            lookupHdr_cons_ne _ _ _ _ hPneb,
            lookupHdr_cons_ne _ _ _ _ (Ne.symm hPneb),
            lookupHdr_cons_ne _ _ _ _ hbneNN,
            lookupHdr_cons_ne _ _ _ _ (Ne.symm hbneNN),
            lookupHdr_cons_ne _ _ _ _ hPneNN,
            lookupHdr_cons_ne _ _ _ _ hNneNN,
            lookupHdr_cons_ne _ _ _ _ (Ne.symm hNneNN),
            lookupHdr_cons_ne _ _ _ _ (Ne.symm hPneNN),
            hNprevL, hNNL]
          rw [if_pos hPadjL]
          rw [if_pos hNNe]
        have hgP : getHdr (free_caseC s b) P =
            ⟨(getHdr s P).length +
              ((getHdr s b).length + (getHdr s N).length + HDR) + HDR,
              (getHdr s P).prev, NN⟩ := by
          rw [hstep]
          show getHdr (setPrev (setNext (setLength (setPrev (setNext
            (setLength s b _) b NN) NN b) P _) P NN) NN P) P = _
          simp [getHdr_eq, lookupHdr_cons_ne _ _ _ _ hPneNN,
            lookupHdr_cons_ne _ _ _ _ hPneb]
        have hgNN : getHdr (free_caseC s b) NN =
            { getHdr s NN with prev := P } := by
          rw [hstep]
          show getHdr (setPrev (setNext (setLength (setPrev (setNext
            (setLength s b _) b NN) NN b) P _) P NN) NN P) NN = _
          simp [getHdr_eq, lookupHdr_cons_ne _ _ _ _ (Ne.symm hPneNN),
            lookupHdr_cons_ne _ _ _ _ (Ne.symm hbneNN)]
        have hg3 : ∀ x, x ≠ b → x ≠ P → x ≠ NN →
            getHdr (free_caseC s b) x = getHdr s x := by
          intro x hxb hxP hxNN
          rw [hstep]
          show getHdr (setPrev (setNext (setLength (setPrev (setNext
            (setLength s b _) b NN) NN b) P _) P NN) NN P) x = _
          simp [getHdr_eq, lookupHdr_cons_ne _ _ _ _ hxb,
            lookupHdr_cons_ne _ _ _ _ hxP, lookupHdr_cons_ne _ _ _ _ hxNN]
        have hend' : (free_caseC s b).end_brk = s.end_brk := by rw [hstep]; rfl
        have hsb' : (free_caseC s b).start_brk = s.start_brk := by
          rw [hstep]; rfl
        have hfb' : (free_caseC s b).free_blocks = s.free_blocks := by
          rw [hstep]; rfl
        have hgPlen : (getHdr (free_caseC s b) P).length =
            (getHdr s P).length +
              ((getHdr s b).length + (getHdr s N).length + HDR) + HDR := by
          rw [hgP]
        have hgPprev : (getHdr (free_caseC s b) P).prev =
            (getHdr s P).prev := by rw [hgP]
        have hgPnext : (getHdr (free_caseC s b) P).next = NN := by rw [hgP]
        have hgNNlen : (getHdr (free_caseC s b) NN).length =
            (getHdr s NN).length := by rw [hgNN]
        have hgNNprev : (getHdr (free_caseC s b) NN).prev = P := by rw [hgNN]
        have hgNNnext : (getHdr (free_caseC s b) NN).next =
            (getHdr s NN).next := by rw [hgNN]
        have hl1hneNN : ∀ x ∈ l1h, x ≠ NN := fun x hx => by
          have := hl1hltP x hx; omega
        refine ⟨(l1h ++ [P]) ++ NN :: t2t, ?_, by simp, ?_, ?_, ?_⟩
        · refine chain_of_links _ _ ?_ ?_
          · rw [hfb', links_eq_seg]
            have hA1 : LinksSeg (free_caseC s b) s.free_blocks l1h P := by
              refine seg_congr s _ hend' _ _ _ ?_ hseg1a
              intro x hx
              rw [hg3 x (hl1hneb x hx) (hl1hneP x hx) (hl1hneNN x hx)]
            have hA2 : LinksSeg (free_caseC s b) P [P, NN]
                (getHdr s NN).next := by
              refine ⟨rfl, by rw [hend']; exact hPneEnd, ?_⟩
              rw [hgPnext]
              refine ⟨rfl, by rw [hend']; exact hNNe, ?_⟩
              rw [hgNNnext]
              rfl
            have hA3 : LinksSeg (free_caseC s b) (getHdr s NN).next t2t
                (free_caseC s b).end_brk := by
              rw [hend']
              refine seg_congr s _ hend' _ _ _ ?_ hseg4
              intro x hx
              rw [hg3 x (ht2tneb x hx) (ht2tneP x hx) (ht2tneNN x hx)]
            have hall := seg_append _ _ _ _ _ _ hA1
              (seg_append _ _ _ _ _ _ hA2 hA3)
            have heq : l1h ++ ([P, NN] ++ t2t) =
                (l1h ++ [P]) ++ NN :: t2t := by simp
            rw [← heq]
            exact hall
          · rw [hend']
            refine sorted_len_le s.end_brk _ ?_ ?_
            · rw [List.pairwise_append]
              refine ⟨hpwl1, List.pairwise_cons.mpr
                ⟨?_, (List.pairwise_cons.mp hpwl2).2.tail⟩, ?_⟩
              · intro x hx
                exact ht2tgtNN x hx
              · intro x hx y hy
                have hx1 : x < b := hl1mem x (by rw [hl1P]; exact hx)
                rcases List.mem_cons.mp hy with rfl | hy'
                · omega
                · have := ht2tgtNN y hy'
                  omega
            · intro a ha
              rcases List.mem_append.mp ha with h | h
              · have ham : a ∈ l := htk.subset (by rw [hl1P]; exact h)
                have := (hOK a ham).2.1
                unfold HDR at this
                omega
              · have ham : a ∈ l := hl2sub.subset (by rw [hl2]; simp [h])
                have := (hOK a ham).2.1
                unfold HDR at this
                omega
        · intro a ha
          rcases List.mem_append.mp ha with h | h
          · by_cases haP : a = P
            · subst haP
              refine ⟨by rw [hsb']; exact hPOK.1, ?_, ?_⟩
              · rw [hgPlen, hend']
                have hN2 := hNOK.2.1
                omega
              · rw [hgPlen]
                omega
            · have hal1 : a ∈ l1h := by
                rcases List.mem_append.mp h with h' | h'
                · exact h'
                · exact absurd (by simpa using h') haP
              exact blockOK_congr s _ _
                (by rw [hg3 a (hl1hneb a hal1) haP (hl1hneNN a hal1)]) hsb'
                (by rw [hend'])
                (hOK a (htk.subset (by rw [hl1P]; exact h)))
          · rcases List.mem_cons.mp h with rfl | h'
            · exact blockOK_congr s _ _ hgNNlen hsb' (by rw [hend']) hNNOK
            · exact blockOK_congr s _ _
                (by rw [hg3 a (ht2tneb a h') (ht2tneP a h') (ht2tneNN a h')])
                hsb' (by rw [hend'])
                (hOK a (hl2sub.subset (by rw [hl2]; simp [h'])))
        · rw [List.chain'_append]
          refine ⟨?_, ?_, ?_⟩
          · refine chain'_pairOK_last_len s _ l1h P ?_ hgPprev hchl1
            intro a ha
            rw [hg3 a (hl1hneb a ha) (hl1hneP a ha) (hl1hneNN a ha)]
          · refine chain'_pairOK_head s _ _ t2t ?_ hgNNlen hchl2tail
            intro a ha
            rw [hg3 a (ht2tneb a ha) (ht2tneP a ha) (ht2tneNN a ha)]
          · intro x hx y hy
            obtain rfl : x = P := by
              rw [List.getLast?_concat] at hx
              exact ((by simpa using hx : P = x)).symm
            obtain rfl : NN = y := by simpa using hy
            refine ⟨?_, hgNNprev⟩
            rw [hgPlen]
            have hNe2 := hpairNNN.1
            omega
        · intro h hh
          have hh1 : h ∈ (l1h ++ [P]).head? := by
            rwa [List.head?_append_of_ne_nil _ (by rw [← hl1P]; exact hl1ne)]
              at hh
          have hhl : h ∈ l.head? := by rwa [hheadl] at hh1
          have hprev0 := hhd h hhl
          have hhm : h ∈ l1h ++ [P] := List.mem_of_mem_head? hh1
          by_cases hhP : h = P
          · subst hhP
            rw [hgPprev]
            exact hprev0
          · have hal1 : h ∈ l1h := by
              rcases List.mem_append.mp hhm with h' | h'
              · exact h'
              · exact absurd (by simpa using h') hhP
            rw [hg3 h (hl1hneb h hal1) hhP (hl1hneNN h hal1)]
            exact hprev0
      · -- merge with successor only; splice after P
        have hPadjL : ¬ P + HDR + (lookupHdr s.hdrs P).length = b := hPadj
        have hl1hneNN : ∀ x ∈ l1h, x ≠ NN := fun x hx => by
          have := hl1hltP x hx; omega
        have hstep : free_caseC s b =
            setPrev (setNext (setPrev (setNext (setLength s b
              ((getHdr s b).length + (getHdr s N).length + HDR)) b NN) NN b)
              P b) b P := by
          simp only [free_caseC]
          rw [if_pos hSnext, hSN]
          simp only [setNext_eq, setPrev_eq, setLength_eq, getHdr_eq,
            setHdr_hdrs, setHdr_end_brk, lookupHdr_cons_same,
            lookupHdr_cons_ne _ _ _ _ (Ne.symm hbneN),
            lookupHdr_cons_ne _ _ _ _ (Ne.symm hPneN),
            lookupHdr_cons_ne _ _ _ _ hPneb,
            lookupHdr_cons_ne _ _ _ _ (Ne.symm hPneb),
            lookupHdr_cons_ne _ _ _ _ hbneNN,
            lookupHdr_cons_ne _ _ _ _ (Ne.symm hbneNN),
            lookupHdr_cons_ne _ _ _ _ hPneNN,
            lookupHdr_cons_ne _ _ _ _ hNneNN,
            lookupHdr_cons_ne _ _ _ _ (Ne.symm hNneNN),
            hNprevL, hNNL]
          rw [if_pos hNNe]
          simp only [setNext_eq, setPrev_eq, setLength_eq, getHdr_eq,
            setHdr_hdrs, setHdr_end_brk, lookupHdr_cons_same,
            lookupHdr_cons_ne _ _ _ _ (Ne.symm hbneN),
            lookupHdr_cons_ne _ _ _ _ (Ne.symm hPneN),
            lookupHdr_cons_ne _ _ _ _ hPneb,
            lookupHdr_cons_ne _ _ _ _ (Ne.symm hPneb),
            lookupHdr_cons_ne _ _ _ _ hbneNN,
            lookupHdr_cons_ne _ _ _ _ (Ne.symm hbneNN),
            lookupHdr_cons_ne _ _ _ _ hPneNN,
            lookupHdr_cons_ne _ _ _ _ hNneNN,
            lookupHdr_cons_ne _ _ _ _ (Ne.symm hNneNN),
            lookupHdr_cons_ne _ _ _ _ (Ne.symm hPneNN),
            hNprevL, hNNL]
          rw [if_neg hPadjL]
        have hgb : getHdr (free_caseC s b) b =
            ⟨(getHdr s b).length + (getHdr s N).length + HDR, P, NN⟩ := by
          rw [hstep]
          show getHdr (setPrev (setNext (setPrev (setNext
            (setLength s b _) b NN) NN b) P b) b P) b = _
          simp [getHdr_eq, lookupHdr_cons_ne _ _ _ _ (Ne.symm hPneb),
            lookupHdr_cons_ne _ _ _ _ hbneNN]
        have hgP : getHdr (free_caseC s b) P =
            { getHdr s P with next := b } := by
          rw [hstep]
          show getHdr (setPrev (setNext (setPrev (setNext
            (setLength s b _) b NN) NN b) P b) b P) P = _
          simp [getHdr_eq, lookupHdr_cons_ne _ _ _ _ hPneb,
            lookupHdr_cons_ne _ _ _ _ hPneNN]
        have hgNN : getHdr (free_caseC s b) NN =
            { getHdr s NN with prev := b } := by
          rw [hstep]
          show getHdr (setPrev (setNext (setPrev (setNext
            (setLength s b _) b NN) NN b) P b) b P) NN = _
          simp [getHdr_eq, lookupHdr_cons_ne _ _ _ _ (Ne.symm hbneNN),
            lookupHdr_cons_ne _ _ _ _ (Ne.symm hPneNN)]
        have hg3 : ∀ x, x ≠ b → x ≠ P → x ≠ NN →
            getHdr (free_caseC s b) x = getHdr s x := by
          intro x hxb hxP hxNN
          rw [hstep]
          show getHdr (setPrev (setNext (setPrev (setNext
            (setLength s b _) b NN) NN b) P b) b P) x = _
          simp [getHdr_eq, lookupHdr_cons_ne _ _ _ _ hxb,
            lookupHdr_cons_ne _ _ _ _ hxP, lookupHdr_cons_ne _ _ _ _ hxNN]
        have hend' : (free_caseC s b).end_brk = s.end_brk := by rw [hstep]; rfl
        have hsb' : (free_caseC s b).start_brk = s.start_brk := by
          rw [hstep]; rfl
        have hfb' : (free_caseC s b).free_blocks = s.free_blocks := by
          rw [hstep]; rfl
        have hgblen : (getHdr (free_caseC s b) b).length =
            (getHdr s b).length + (getHdr s N).length + HDR := by rw [hgb]
        have hgbprev : (getHdr (free_caseC s b) b).prev = P := by rw [hgb]
        have hgbnext : (getHdr (free_caseC s b) b).next = NN := by rw [hgb]
        have hgPlen : (getHdr (free_caseC s b) P).length =
            (getHdr s P).length := by rw [hgP]
        have hgPprev : (getHdr (free_caseC s b) P).prev =
            (getHdr s P).prev := by rw [hgP]
        have hgPnext : (getHdr (free_caseC s b) P).next = b := by rw [hgP]
        have hgNNlen : (getHdr (free_caseC s b) NN).length =
            (getHdr s NN).length := by rw [hgNN]
        have hgNNprev : (getHdr (free_caseC s b) NN).prev = b := by rw [hgNN]
        have hgNNnext : (getHdr (free_caseC s b) NN).next =
            (getHdr s NN).next := by rw [hgNN]
        refine ⟨(l1h ++ [P]) ++ b :: NN :: t2t, ?_, by simp, ?_, ?_, ?_⟩
        · refine chain_of_links _ _ ?_ ?_
          · rw [hfb', links_eq_seg]
            have hA1 : LinksSeg (free_caseC s b) s.free_blocks l1h P := by
              refine seg_congr s _ hend' _ _ _ ?_ hseg1a
              intro x hx
              rw [hg3 x (hl1hneb x hx) (hl1hneP x hx) (hl1hneNN x hx)]
            have hA2 : LinksSeg (free_caseC s b) P [P, b, NN]
                (getHdr s NN).next := by
              refine ⟨rfl, by rw [hend']; exact hPneEnd, ?_⟩
              rw [hgPnext]
              refine ⟨rfl, by rw [hend']; exact hbneEnd, ?_⟩
              rw [hgbnext]
              refine ⟨rfl, by rw [hend']; exact hNNe, ?_⟩
              rw [hgNNnext]
              rfl
            have hA3 : LinksSeg (free_caseC s b) (getHdr s NN).next t2t
                (free_caseC s b).end_brk := by
              rw [hend']
              refine seg_congr s _ hend' _ _ _ ?_ hseg4
              intro x hx
              rw [hg3 x (ht2tneb x hx) (ht2tneP x hx) (ht2tneNN x hx)]
            have hall := seg_append _ _ _ _ _ _ hA1
              (seg_append _ _ _ _ _ _ hA2 hA3)
            have heq : l1h ++ ([P, b, NN] ++ t2t) =
                (l1h ++ [P]) ++ b :: NN :: t2t := by simp
            rw [← heq]
            exact hall
          · rw [hend']
            refine sorted_len_le s.end_brk _ ?_ ?_
            · rw [List.pairwise_append]
              refine ⟨hpwl1, List.pairwise_cons.mpr ⟨?_,
                List.pairwise_cons.mpr
                  ⟨?_, (List.pairwise_cons.mp hpwl2).2.tail⟩⟩, ?_⟩
              · intro x hx
                rcases List.mem_cons.mp hx with rfl | hx'
                · omega
                · have := ht2tgtNN x hx'
                  omega
              · intro x hx
                exact ht2tgtNN x hx
              · intro x hx y hy
                have hx1 : x < b := hl1mem x (by rw [hl1P]; exact hx)
                rcases List.mem_cons.mp hy with rfl | hy'
                · omega
                · rcases List.mem_cons.mp hy' with rfl | hy''
                  · omega
                  · have := ht2tgtNN y hy''
                    omega
            · intro a ha
              rcases List.mem_append.mp ha with h | h
              · have ham : a ∈ l := htk.subset (by rw [hl1P]; exact h)
                have := (hOK a ham).2.1
                unfold HDR at this
                omega
              · rcases List.mem_cons.mp h with rfl | h'
                · unfold HDR at hbend
                  omega
                · have ham : a ∈ l := hl2sub.subset
                    (by rw [hl2]; simp [h'])
                  have := (hOK a ham).2.1
                  unfold HDR at this
                  omega
        · intro a ha
          rcases List.mem_append.mp ha with h | h
          · by_cases haP : a = P
            · subst haP
              exact blockOK_congr s _ _ hgPlen hsb' (by rw [hend']) hPOK
            · have hal1 : a ∈ l1h := by
                rcases List.mem_append.mp h with h' | h'
                · exact h'
                · exact absurd (by simpa using h') haP
              exact blockOK_congr s _ _
                (by rw [hg3 a (hl1hneb a hal1) haP (hl1hneNN a hal1)]) hsb'
                (by rw [hend'])
                (hOK a (htk.subset (by rw [hl1P]; exact h)))
          · rcases List.mem_cons.mp h with rfl | h'
            · refine ⟨by rw [hsb']; exact hbin, ?_, ?_⟩
              · rw [hgblen, hend']
                have hN2 := hNOK.2.1
                omega
              · rw [hgblen]
                omega
            · rcases List.mem_cons.mp h' with rfl | h''
              · exact blockOK_congr s _ _ hgNNlen hsb' (by rw [hend']) hNNOK
              · exact blockOK_congr s _ _
                  (by rw [hg3 a (ht2tneb a h'') (ht2tneP a h'')
                    (ht2tneNN a h'')])
                  hsb' (by rw [hend'])
                  (hOK a (hl2sub.subset (by rw [hl2]; simp [h''])))
        · rw [List.chain'_append]
          refine ⟨?_, ?_, ?_⟩
          · refine chain'_pairOK_congr s _ _ ?_ hchl1
            intro a ha
            by_cases haP : a = P
            · subst haP
              exact ⟨hgPlen, hgPprev⟩
            · have hal1 : a ∈ l1h := by
                rcases List.mem_append.mp ha with h' | h'
                · exact h'
                · exact absurd (by simpa using h') haP
              rw [hg3 a (hl1hneb a hal1) haP (hl1hneNN a hal1)]
              exact ⟨rfl, rfl⟩
          · rw [List.chain'_cons']
            refine ⟨?_, ?_⟩
            · intro y hy
              obtain rfl : NN = y := by simpa using hy
              refine ⟨?_, hgNNprev⟩
              rw [hgblen]
              have hNe2 := hpairNNN.1
              omega
            · refine chain'_pairOK_head s _ _ t2t ?_ hgNNlen hchl2tail
              intro a ha
              rw [hg3 a (ht2tneb a ha) (ht2tneP a ha) (ht2tneNN a ha)]
          · intro x hx y hy
            obtain rfl : x = P := by
              rw [List.getLast?_concat] at hx
              exact ((by simpa using hx : P = x)).symm
            obtain rfl : b = y := by simpa using hy
            refine ⟨?_, hgbprev⟩
            rw [hgPlen]
            omega
        · intro h hh
          have hh1 : h ∈ (l1h ++ [P]).head? := by
            rwa [List.head?_append_of_ne_nil _ (by rw [← hl1P]; exact hl1ne)]
              at hh
          have hhl : h ∈ l.head? := by rwa [hheadl] at hh1
          have hprev0 := hhd h hhl
          have hhm : h ∈ l1h ++ [P] := List.mem_of_mem_head? hh1
          by_cases hhP : h = P
          · subst hhP
            rw [hgPprev]
            exact hprev0
          · have hal1 : h ∈ l1h := by
              rcases List.mem_append.mp hhm with h' | h'
              · exact h'
              · exact absurd (by simpa using h') hhP
            rw [hg3 h (hl1hneb h hal1) hhP (hl1hneNN h hal1)]
            exact hprev0

end Bagnalloc
